import Mathlib

/-!
Verification of the python_worker task-execution worker
(`src/workers/python_worker/worker.py` and `ai_helper.py`).

The Python values flowing through the worker (queue payloads, task rows,
validator rules, chart data) are embedded as the inductive `JVal` below.
Numbers are embedded as `Int`: the claims under study only exercise
integer-valued data, and IEEE floats are outside the scope of this
shallow embedding.  Strings are Lean `String`s; the byte-level encoding
of the wire format is not modelled.
-/

namespace Pw

/-- A Python/JSON value: `None`, `bool`, `int`, `str`, `list`, `dict`
(dicts keep insertion order, as Python dicts do). -/
inductive JVal where
  | null
  | bool (b : Bool)
  | int (n : Int)
  | str (s : String)
  | arr (xs : List JVal)
  | obj (kvs : List (String × JVal))

/-- `d.get(k)` on an embedded dict: first binding of `k` (Python dicts have
unique keys, so first = only). -/
def JVal.get? (kvs : List (String × JVal)) (k : String) : Option JVal :=
  match kvs with
  | [] => none
  | (k0, v) :: rest => if k0 = k then some v else JVal.get? rest k

/-- `k in d` on an embedded dict. -/
def JVal.hasKey (kvs : List (String × JVal)) (k : String) : Bool :=
  match kvs with
  | [] => false
  | (k0, _) :: rest => k0 = k || JVal.hasKey rest k

/-- Python truthiness (`bool(v)`): `None`, `False`, `0`, `""`, `[]` and
`\x7b\x7d` are falsy, everything else truthy. -/
def JVal.truthy : JVal → Bool
  | .null => false
  | .bool b => b
  | .int n => n != 0
  | .str s => s ≠ ""
  | .arr xs => !xs.isEmpty
  | .obj kvs => !kvs.isEmpty

/-- `v is None`. -/
def JVal.isNull : JVal → Bool
  | .null => true
  | _ => false

/-! ### Character classes and Python string primitives -/

/-- Python whitespace for `str.strip()` and the regex class `\s`
(ASCII fragment: space, tab, newline, carriage return, form feed,
vertical tab). -/
def pySpace (c : Char) : Bool :=
  c = ' ' || c = '\t' || c = '\n' || c = '\r' || c = Char.ofNat 11 || c = Char.ofNat 12

/-- JSON (`json.loads`) whitespace: space, tab, newline, carriage return. -/
def jsonWs (c : Char) : Bool :=
  c = ' ' || c = '\t' || c = '\n' || c = '\r'

def isDigitC (c : Char) : Bool := '0' ≤ c && c ≤ '9'

/-- `s.strip(chars)`: drop the characters satisfying `p` from both ends. -/
def stripBy (p : Char → Bool) (cs : List Char) : List Char :=
  ((cs.dropWhile p).reverse.dropWhile p).reverse

/-- Python `s.strip()` on a character list. -/
def pyStrip (cs : List Char) : List Char := stripBy pySpace cs

/-- The single-quote character, written by code point to keep source plain. -/
def squote : Char := Char.ofNat 39

/-! ### `json.dumps` (serializer)

Models Python `json.dumps(obj, ensure_ascii=False)` with its default
separators `", "` and `": "`.  (`json.loads` accepts the `ensure_ascii`
variants identically, so theorems about `loads ∘ dumps` are unaffected by
this choice.) -/

/-- Lower-case hex digit for `n < 16`. -/
def hexCh (n : Nat) : Char :=
  if n < 10 then Char.ofNat ('0'.toNat + n) else Char.ofNat ('a'.toNat + (n - 10))

/-- JSON string escaping of one character, as `json.dumps` performs it:
quote and backslash, the short escapes `\b \t \n \f \r`, `\u00XX` for the
remaining control characters, everything else verbatim. -/
def escChar (c : Char) : List Char :=
  if c = '"' then ['\\', '"']
  else if c = '\\' then ['\\', '\\']
  else if c = '\n' then ['\\', 'n']
  else if c = '\r' then ['\\', 'r']
  else if c = '\t' then ['\\', 't']
  else if c = Char.ofNat 8 then ['\\', 'b']
  else if c = Char.ofNat 12 then ['\\', 'f']
  else if c.toNat < 32 then
    ['\\', 'u', '0', '0', hexCh (c.toNat / 16), hexCh (c.toNat % 16)]
  else [c]

/-- The rendered form of a JSON string (quotes included). -/
def serStr (s : String) : List Char :=
  '"' :: (s.toList.flatMap escChar ++ ['"'])

/-- Decimal digits of `n`, most significant first. -/
def natDigs (n : Nat) : List Char :=
  if n < 10 then [Char.ofNat ('0'.toNat + n % 10)]
  else natDigs (n / 10) ++ [Char.ofNat ('0'.toNat + n % 10)]
termination_by n
decreasing_by simp_wf; omega

/-- Decimal rendering of an integer: optional sign, then digits. -/
def intChars (i : Int) : List Char :=
  (if i < 0 then ['-'] else []) ++ natDigs i.natAbs

mutual

/-- `json.dumps` on a value, to a character list. -/
def serializeL : JVal → List Char
  | .null => 'n' :: 'u' :: 'l' :: 'l' :: []
  | .bool true => 't' :: 'r' :: 'u' :: 'e' :: []
  | .bool false => 'f' :: 'a' :: 'l' :: 's' :: 'e' :: []
  | .int n => intChars n
  | .str s => serStr s
  | .arr xs => '[' :: (serItems xs ++ [']'])
  | .obj kvs => '{' :: (serFields kvs ++ ['}'])

/-- Array elements, `", "`-separated. -/
def serItems : List JVal → List Char
  | [] => []
  | x :: xs => serializeL x ++ serItemsTail xs

def serItemsTail : List JVal → List Char
  | [] => []
  | x :: xs => ',' :: ' ' :: (serializeL x ++ serItemsTail xs)

/-- Object members, keys rendered as JSON strings, `": "` after each key. -/
def serFields : List (String × JVal) → List Char
  | [] => []
  | (k, v) :: kvs => serStr k ++ ':' :: ' ' :: (serializeL v ++ serFieldsTail kvs)

def serFieldsTail : List (String × JVal) → List Char
  | [] => []
  | (k, v) :: kvs => ',' :: ' ' :: (serStr k ++ ':' :: ' ' :: (serializeL v ++ serFieldsTail kvs))

end

/-- `json.dumps` as a `String`. -/
def serialize (v : JVal) : String := String.mk (serializeL v)

/-! ### `json.loads` (parser)

A fuel-indexed recursive-descent parser for the JSON fragment the worker
exchanges (integers in place of floats).  `none` models a raised
`json.JSONDecodeError`. -/

/-- Skip JSON whitespace. -/
def skipWsL : List Char → List Char
  | c :: cs => if jsonWs c then skipWsL cs else c :: cs
  | [] => []

/-- Longest digit prefix and the remainder. -/
def takeDigs : List Char → List Char × List Char
  | c :: cs =>
      if isDigitC c then
        let (ds, r) := takeDigs cs
        (c :: ds, r)
      else ([], c :: cs)
  | [] => ([], [])

/-- Numeric value of a digit run. -/
def digsVal (ds : List Char) : Nat :=
  ds.foldl (fun a c => a * 10 + (c.toNat - '0'.toNat)) 0

/-- An integer token: optional minus, a digit run without a redundant
leading zero, not continued by `.`/`e`/`E` (floats are outside the model). -/
def parseNumTok (cs : List Char) : Option (Int × List Char) :=
  let (neg, cs1) : Bool × List Char := match cs with
    | c :: r => if c = '-' then (true, r) else (false, cs)
    | [] => (false, cs)
  match takeDigs cs1 with
  | ([], _) => none
  | (d :: ds, r) =>
      if d = '0' && !ds.isEmpty then none
      else
        match r with
        | c :: _ =>
            if c = '.' || c = 'e' || c = 'E' then none
            else some (if neg then -(digsVal (d :: ds) : Int) else (digsVal (d :: ds) : Int), r)
        | [] => some (if neg then -(digsVal (d :: ds) : Int) else (digsVal (d :: ds) : Int), [])

/-- Hex digit value. -/
def hexv (c : Char) : Option Nat :=
  let n := c.toNat
  if 48 ≤ n ∧ n ≤ 57 then some (n - 48)
  else if 97 ≤ n ∧ n ≤ 102 then some (n - 87)
  else if 65 ≤ n ∧ n ≤ 70 then some (n - 55)
  else none

/-- Short escapes accepted after a backslash. -/
def unescCh (c : Char) : Option Char :=
  if c = '"' then some '"'
  else if c = '\\' then some '\\'
  else if c = '/' then some '/'
  else if c = 'n' then some '\n'
  else if c = 'r' then some '\r'
  else if c = 't' then some '\t'
  else if c = 'b' then some (Char.ofNat 8)
  else if c = 'f' then some (Char.ofNat 12)
  else none

/-- String body after the opening quote (strict mode: raw control
characters are rejected, as `json.loads` does). -/
def parseStrBody (acc : List Char) : List Char → Option (String × List Char)
  | c :: r =>
      if c = '"' then some (String.mk acc.reverse, r)
      else if c = '\\' then
        match r with
        | e :: r1 =>
            if e = 'u' then
              match r1 with
              | a :: b :: c2 :: d :: r2 =>
                  match hexv a, hexv b, hexv c2, hexv d with
                  | some va, some vb, some vc, some vd =>
                      parseStrBody (Char.ofNat (((va * 16 + vb) * 16 + vc) * 16 + vd) :: acc) r2
                  | _, _, _, _ => none
              | _ => none
            else
              match unescCh e with
              | some ch => parseStrBody (ch :: acc) r1
              | none => none
        | [] => none
      else if c.toNat < 32 then none else parseStrBody (c :: acc) r
  | [] => none

mutual

/-- One JSON value (fuel-indexed; `parse` supplies ample fuel). -/
def parseVal : Nat → List Char → Option (JVal × List Char)
  | 0, _ => none
  | fuel + 1, cs =>
      match skipWsL cs with
      | [] => none
      | c :: r =>
          if c = 'n' then
            match r with
            | 'u' :: 'l' :: 'l' :: r2 => some (.null, r2)
            | _ => none
          else if c = 't' then
            match r with
            | 'r' :: 'u' :: 'e' :: r2 => some (.bool true, r2)
            | _ => none
          else if c = 'f' then
            match r with
            | 'a' :: 'l' :: 's' :: 'e' :: r2 => some (.bool false, r2)
            | _ => none
          else if c = '"' then
            match parseStrBody [] r with
            | some (s, r2) => some (.str s, r2)
            | none => none
          else if c = '[' then
            match skipWsL r with
            | c2 :: r2 =>
                if c2 = ']' then some (.arr [], r2)
                else
                  match parseItems fuel (c2 :: r2) with
                  | some (xs, r3) => some (.arr xs, r3)
                  | none => none
            | [] =>
                match parseItems fuel [] with
                | some (xs, r3) => some (.arr xs, r3)
                | none => none
          else if c = '{' then
            match skipWsL r with
            | c2 :: r2 =>
                if c2 = '}' then some (.obj [], r2)
                else
                  match parseFields fuel (c2 :: r2) with
                  | some (kvs, r3) => some (.obj kvs, r3)
                  | none => none
            | [] =>
                match parseFields fuel [] with
                | some (kvs, r3) => some (.obj kvs, r3)
                | none => none
          else if c = '-' || isDigitC c then
            match parseNumTok (c :: r) with
            | some (n, r2) => some (.int n, r2)
            | none => none
          else none

/-- One-or-more comma-separated array elements, then `]`. -/
def parseItems : Nat → List Char → Option (List JVal × List Char)
  | 0, _ => none
  | fuel + 1, cs =>
      match parseVal fuel cs with
      | none => none
      | some (v, r) =>
          match skipWsL r with
          | ',' :: r2 =>
              match parseItems fuel (skipWsL r2) with
              | some (vs, r3) => some (v :: vs, r3)
              | none => none
          | ']' :: r2 => some ([v], r2)
          | _ => none

/-- One-or-more `"key": value` members, then `\x7d`. -/
def parseFields : Nat → List Char → Option (List (String × JVal) × List Char)
  | 0, _ => none
  | fuel + 1, cs =>
      match skipWsL cs with
      | '"' :: r =>
          match parseStrBody [] r with
          | none => none
          | some (k, r1) =>
              match skipWsL r1 with
              | ':' :: r2 =>
                  match parseVal fuel (skipWsL r2) with
                  | none => none
                  | some (v, r3) =>
                      match skipWsL r3 with
                      | ',' :: r4 =>
                          match parseFields fuel (skipWsL r4) with
                          | some (kvs, r5) => some ((k, v) :: kvs, r5)
                          | none => none
                      | '}' :: r4 => some ([(k, v)], r4)
                      | _ => none
              | _ => none
      | _ => none

end

/-- `json.loads`: parse a complete document, requiring only whitespace
after the value. -/
def parseJson (s : String) : Option JVal :=
  let cs := s.toList
  match parseVal (cs.length + 1) cs with
  | some (v, r) => if (skipWsL r).isEmpty then some v else none
  | none => none

/-! ### Unresolved-template scanner

Models the guard `re.findall(r'\{\{[^}]+\}\}', json.dumps(payload))`
being non-empty, i.e. whether the serialized payload still contains an
unresolved `\x7b\x7btasks.X.outputs.Y\x7d\x7d` reference. -/

/-- After a match of `[^}]+`, the first closing brace must be doubled. -/
def tmplClose : List Char → Bool
  | '}' :: '}' :: _ => true
  | '}' :: _ => false
  | _ :: rest => tmplClose rest
  | [] => false

/-- The part after an opening `\x7b\x7b`: at least one character that is
not `\x7d`, then `\x7d\x7d`. -/
def tmplAfterOpen : List Char → Bool
  | c :: rest => if c = '}' then false else tmplClose rest
  | [] => false

/-- Whether any substring matches `\{\{[^}]+\}\}`. -/
def hasUnresolved : List Char → Bool
  | [] => false
  | '{' :: '{' :: rest => tmplAfterOpen rest || hasUnresolved ('{' :: rest)
  | _ :: rest => hasUnresolved rest
termination_by cs => cs.length
decreasing_by all_goals simp_wf <;> omega

/-! ### The three regex probes of `ai_helper.extract_json_from_response`

(1) the fenced block pattern with `re.DOTALL`,
(2) nothing (the whole string is handed to `json.loads`),
(3) the first `\{[^{}]*\}` substring. -/

/-- Does `\s*` + a closing triple backtick follow here? -/
def closeFence (cs : List Char) : Bool :=
  match cs.dropWhile pySpace with
  | c1 :: c2 :: c3 :: _ =>
      c1 = Char.ofNat 96 && c2 = Char.ofNat 96 && c3 = Char.ofNat 96
  | _ => false

/-- Grow the lazy group `\{.*?\}` one character at a time: at each `\x7d`
(the shortest candidates first) check for the closing fence, otherwise the
brace joins the group body. -/
def fencedGroup (acc : List Char) : List Char → Option (List Char)
  | '}' :: rest =>
      if closeFence rest then some ('{' :: (acc.reverse ++ ['}']))
      else fencedGroup ('}' :: acc) rest
  | c :: rest => fencedGroup (c :: acc) rest
  | [] => none

/-- After the opening fence (and optional `json` tag): `\s*`, then the
group must begin with `\x7b`. -/
def fencedBody (cs : List Char) : Option (List Char) :=
  match cs.dropWhile pySpace with
  | '{' :: rest => fencedGroup [] rest
  | _ => none

/-- Attempt the fenced pattern anchored at this position.  The optional
`json` tag is greedy, with backtracking to the untagged attempt. -/
def fencedAt (cs : List Char) : Option (List Char) :=
  match cs with
  | c1 :: c2 :: c3 :: r =>
      if c1 = Char.ofNat 96 && c2 = Char.ofNat 96 && c3 = Char.ofNat 96 then
        match r with
        | 'j' :: 's' :: 'o' :: 'n' :: r2 =>
            match fencedBody r2 with
            | some g => some g
            | none => fencedBody r
        | _ => fencedBody r
      else none
  | _ => none

/-- Leftmost match of the fenced pattern, returning group 1. -/
def fencedSearch : List Char → Option (List Char)
  | [] => none
  | c :: rest =>
      match fencedAt (c :: rest) with
      | some g => some g
      | none => fencedSearch rest

/-- Body scan for `\{[^{}]*\}`: plain characters until the first brace,
which must be closing. -/
def bracesScan (acc : List Char) : List Char → Option (List Char)
  | '}' :: _ => some ('{' :: (acc.reverse ++ ['}']))
  | '{' :: _ => none
  | c :: rest => bracesScan (c :: acc) rest
  | [] => none

/-- Leftmost match of `\{[^{}]*\}`. -/
def firstBraces : List Char → Option (List Char)
  | [] => none
  | '{' :: rest =>
      match bracesScan [] rest with
      | some g => some g
      | none => firstBraces rest
  | _ :: rest => firstBraces rest

/-- Steps (2) and (3) of the extraction: `json.loads` on the whole string,
then on the first `\{...\}` substring. -/
def extractWholeOrBraces (response : String) : Option JVal :=
  match parseJson response with
  | some v => some v
  | none =>
      match firstBraces response.toList with
      | some g => parseJson (String.mk g)
      | none => none

/-- `ai_helper.extract_json_from_response` (lines 265-288): fenced
```json block first, then the whole string, then the first braced
substring; the first successful parse wins. -/
def extract_json_from_response (response : String) : Option JVal :=
  match fencedSearch response.toList with
  | some g =>
      match parseJson (String.mk g) with
      | some v => some v
      | none => extractWholeOrBraces response
  | none => extractWholeOrBraces response

/-! ### The reviewer score probe `re.search(r'Score:\s*(\d+)', text)` -/

/-- After a literal `Score:`: skip `\s*`, then require at least one digit. -/
def scoreAfter (cs : List Char) : Option Nat :=
  match takeDigs (cs.dropWhile pySpace) with
  | ([], _) => none
  | (ds, _) => some (digsVal ds)

/-- Leftmost successful match of the score pattern. -/
def scoreSearch : List Char → Option Nat
  | 'S' :: 'c' :: 'o' :: 'r' :: 'e' :: ':' :: r =>
      match scoreAfter r with
      | some n => some n
      | none => scoreSearch ('c' :: 'o' :: 'r' :: 'e' :: ':' :: r)
  | _ :: rest => scoreSearch rest
  | [] => none
termination_by cs => cs.length
decreasing_by all_goals simp_wf <;> omega

/-! ### Python `str()` / `repr()` coercion

`str(v)` for embedded values: identity on strings, `repr` otherwise.
`repr` of a string picks the quote as CPython does (single quotes unless
the string contains one and no double quote). -/

/-- Escaping inside `repr` of a string with quote character `q`. -/
def reprEsc (q : Char) (c : Char) : List Char :=
  if c = '\\' then ['\\', '\\']
  else if c = q then ['\\', q]
  else if c = '\n' then ['\\', 'n']
  else if c = '\r' then ['\\', 'r']
  else if c = '\t' then ['\\', 't']
  else if c.toNat < 32 || c.toNat = 127 then ['\\', 'x', hexCh (c.toNat / 16), hexCh (c.toNat % 16)]
  else [c]

/-- `repr` of a Python string. -/
def reprStr (s : String) : List Char :=
  let q := if s.toList.contains squote && !s.toList.contains '"' then '"' else squote
  q :: (s.toList.flatMap (reprEsc q) ++ [q])

mutual

/-- Python `repr(v)`. -/
def pyRepr : JVal → List Char
  | .null => ['N', 'o', 'n', 'e']
  | .bool true => ['T', 'r', 'u', 'e']
  | .bool false => ['F', 'a', 'l', 's', 'e']
  | .int n => intChars n
  | .str s => reprStr s
  | .arr xs => '[' :: (pyReprItems xs ++ [']'])
  | .obj kvs => '{' :: (pyReprFields kvs ++ ['}'])

def pyReprItems : List JVal → List Char
  | [] => []
  | x :: xs => pyRepr x ++ pyReprItemsTail xs

def pyReprItemsTail : List JVal → List Char
  | [] => []
  | x :: xs => ',' :: ' ' :: (pyRepr x ++ pyReprItemsTail xs)

def pyReprFields : List (String × JVal) → List Char
  | [] => []
  | (k, v) :: kvs => reprStr k ++ ':' :: ' ' :: (pyRepr v ++ pyReprFieldsTail kvs)

def pyReprFieldsTail : List (String × JVal) → List Char
  | [] => []
  | (k, v) :: kvs => ',' :: ' ' :: (reprStr k ++ ':' :: ' ' :: (pyRepr v ++ pyReprFieldsTail kvs))

end

/-- Python `str(v)`. -/
def pyStr : JVal → List Char
  | .str s => s.toList
  | v => pyRepr v

/-- `d.get(k)` when the container may not be a dict (`None` for non-dicts,
which in the worker only arises where Python would have crashed earlier). -/
def jGet (payload : JVal) (k : String) : Option JVal :=
  match payload with
  | .obj kvs => JVal.get? kvs k
  | _ => none

/-- `payload.get(k)` with Python `None` for a missing key. -/
def jGetD (payload : JVal) (k : String) : JVal :=
  (jGet payload k).getD .null

/-- `s.lower().strip()` (ASCII case mapping). -/
def pyLowerStrip (s : String) : String :=
  String.mk (pyStrip (s.toList.map Char.toLower))

/-! ### Chart agent (`run_chart`, lines 815-1156)

The outcome abstracts the side effects: `failedTemplates` / `failed` are
the two `fail`-RPC-and-return paths (no PNG upload, no `complete`);
`rendered` is the PNG-upload + `complete` path; the `raised*` outcomes
are exceptions that propagate to the dispatcher.  Error messages are
carried as structured tags rather than formatted strings. -/

inductive ChartErrKind where
  | pieErr
  | histErr
  | barYErr
  | barXYLenErr
  | barCatErr
  | xyErr

inductive ChartOutcome where
  | failedTemplates
  | failed (e : ChartErrKind)
  | rendered (chartType : String) (dataPoints : Nat)
  | raisedUnsupported
  | raisedTypeErr

/-- An integer literal as Python `float(s)` would accept within the
integer fragment (optional sign, digits).  Fractional/exponent/`inf`
forms denote floats and are outside the embedding. -/
def parseIntStr (cs : List Char) : Option Int :=
  let (neg, ds) : Bool × List Char := match cs with
    | '-' :: r => (true, r)
    | '+' :: r => (false, r)
    | r => (false, r)
  if !ds.isEmpty && ds.all isDigitC then
    some (if neg then -(digsVal ds : Int) else (digsVal ds : Int))
  else none

/-- `_coerce_number_list` (lines 853-867): keep ints (and bools, which are
ints in Python) and numeric strings, silently dropping everything else. -/
def coerce_number_list : JVal → List Int
  | .arr items =>
      items.filterMap (fun it =>
        match it with
        | .int n => some n
        | .bool b => some (if b then 1 else 0)
        | .str s =>
            let t := pyStrip s.toList
            if t.isEmpty then none else parseIntStr t
        | _ => none)
  | _ => []

/-- `_coerce_label_list` (lines 869-874) and the `[str(v) for v in x]`
comprehension of line 995. -/
def coerce_label_list : JVal → List String
  | .arr v => v.map (fun z => String.mk (pyStr z))
  | _ => []

/-- `payload.get("type")` normalisation of line 984:
`(chart_type or "").lower().strip()`; `.lower()` on a truthy non-string
raises (`none` here). -/
def chartTypeOf : JVal → Option String
  | .str s => some (pyLowerStrip s)
  | v => if v.truthy then none else some ""

/-- Chart-type auto-selection (lines 997-1006). -/
def chartTypeSel (ct : String) (labels_str : List String) (values_num x_num y_num : List Int) :
    String :=
  if ct ≠ "" then ct
  else if !labels_str.isEmpty && !values_num.isEmpty
      && labels_str.length = values_num.length then "bar"
  else if !values_num.isEmpty && !(!x_num.isEmpty && !y_num.isEmpty) then "histogram"
  else if !x_num.isEmpty && !y_num.isEmpty && x_num.length = y_num.length then "line"
  else "bar"

/-- Per-type data validation (lines 1008-1026): `some e` is the
`error_msg` branch that posts the `fail` RPC and returns. -/
def chartValidate (ct : String) (labels_str : List String) (values_num x_num y_num : List Int)
    (x_cat : List String) : Option ChartErrKind :=
  if ct = "pie" then
    if labels_str.isEmpty || values_num.isEmpty || labels_str.length ≠ values_num.length then
      some .pieErr
    else none
  else if ct = "histogram" then
    if values_num.isEmpty then some .histErr else none
  else if ct = "bar" then
    if y_num.isEmpty then some .barYErr
    else if !x_num.isEmpty && x_num.length ≠ y_num.length then some .barXYLenErr
    else if x_num.isEmpty && (x_cat.isEmpty || x_cat.length ≠ y_num.length) then some .barCatErr
    else none
  else
    if x_num.isEmpty || y_num.isEmpty || x_num.length ≠ y_num.length then some .xyErr
    else none

/-- `data_points` of line 1113. -/
def chartDataPoints (ct : String) (values_num y_num : List Int) : Nat :=
  if ct = "bar" || ct = "line" || ct = "scatter" || ct = "area" then y_num.length
  else if !values_num.isEmpty then values_num.length
  else 0

/-- Lines 983-1156 of `run_chart`, from the already-merged `type`, `x`,
`y`, `labels`, `values` payload fields to the outcome. -/
def chartStage (ctRaw x y labels values : JVal) : ChartOutcome :=
  match chartTypeOf ctRaw with
  | none => .raisedTypeErr
  | some ct0 =>
      let x_num := coerce_number_list x
      let y_num := coerce_number_list y
      let values_num := coerce_number_list values
      let labels_str := coerce_label_list labels
      let x_cat := coerce_label_list x
      let ct := chartTypeSel ct0 labels_str values_num x_num y_num
      match chartValidate ct labels_str values_num x_num y_num x_cat with
      | some e => .failed e
      | none =>
          if ct = "bar" || ct = "line" || ct = "scatter" || ct = "area"
              || ct = "pie" || ct = "histogram" then
            .rendered ct (chartDataPoints ct values_num y_num)
          else .raisedUnsupported

/-- Can `float(v)` succeed (integer fragment)?  Used by the row-extraction
heuristics. -/
def floatable : JVal → Bool
  | .int _ => true
  | .bool _ => true
  | .str s => (parseIntStr (pyStrip s.toList)).isSome
  | _ => false

/-- `float(v)` on the integer fragment. -/
def floatVal : JVal → Option Int
  | .int n => some n
  | .bool b => some (if b then 1 else 0)
  | .str s => parseIntStr (pyStrip s.toList)
  | _ => none

/-- `_try_parse_json_or_csv_text` (lines 876-896) restricted to its JSON
branch; the CSV fallback is not modelled (no claim exercises it), so a
non-JSON text yields `none` here where Python may also return CSV rows. -/
def try_parse_json_text (s : String) : Option JVal :=
  let t := pyStrip s.toList
  if t.isEmpty then none
  else parseJson (String.mk t)

/-- `_extract_xy_from_rows` (lines 898-949): choose an x field and the
first numeric y field, then collect the rows that have a numeric y value.
Rows whose y lookup or coercion fails are skipped (the `try/continue`). -/
def extract_xy_from_rows (rows : List JVal) (x_field y_field : Option String) :
    List JVal × List Int :=
  match rows with
  | [] => ([], [])
  | r0 :: _ =>
      match r0 with
      | .obj kvs0 =>
          let fields := kvs0.map Prod.fst
          let xf : Option String := match x_field with
            | some f => if fields.contains f then some f else none
            | none => none
          let yf0 : Option String := match y_field with
            | some f => if fields.contains f then some f else none
            | none => none
          let numeric_fields := fields.filter (fun f =>
            !(xf = some f) && ((rows.take 25).any (fun r => floatable (jGetD r f))))
          let yf := match yf0 with
            | some f => some f
            | none => numeric_fields.head?
          match yf with
          | none => ([], [])
          | some yfv =>
              let pairs := (rows.zip (List.range rows.length)).filterMap (fun ri =>
                match floatVal (jGetD ri.1 yfv) with
                | none => none
                | some yv =>
                    let xv : JVal := match xf with
                      | some xfv =>
                          let raw := jGetD ri.1 xfv
                          match floatVal raw with
                          | some n => .int n
                          | none => .str (String.mk (pyStr raw))
                      | none => .int (ri.2 + 1)
                    some (xv, yv))
              (pairs.map Prod.fst, pairs.map Prod.snd)
      | _ => ([], [])

/-- Python truthy-`or` chain over payload lookups (`payload.get(a) or
payload.get(b) or payload.get(c)`). -/
def orChain (payload : JVal) (keys : List String) : JVal :=
  match keys with
  | [] => .null
  | [k] => jGetD payload k
  | k :: rest =>
      let v := jGetD payload k
      if v.truthy then v else orChain payload rest

/-- First truthy lookup usable as a field name (a non-string value is
never found among the string field names, hence acts like `None`). -/
def fieldNameOpt (payload : JVal) (keys : List String) : Option String :=
  match orChain payload keys with
  | .str s => some s
  | _ => none

/-- Lines 951-981 of `run_chart`: decode `payload.data` or a free-text
field as JSON; when `x`/`y` are not both non-empty lists and the decoded
data is a list, derive them from the rows. -/
def chartInferXY (payload : JVal) : JVal × JVal :=
  let xV := jGetD payload "x"
  let yV := jGetD payload "y"
  let dataObj1 := jGetD payload "data"
  let textV := orChain payload ["text", "goal", "prompt"]
  let dataObj2 := match dataObj1 with
    | .str s => match try_parse_json_text s with
        | some p => p
        | none => .str s
    | v => v
  let dataObj3 := if dataObj2.isNull then
      (match textV with
       | .str s => match try_parse_json_text s with
            | some p => p
            | none => .null
       | _ => .null)
    else dataObj2
  let needInfer : Bool := match xV, yV with
    | .arr xs, .arr ys => xs.isEmpty || ys.isEmpty
    | _, _ => true
  match dataObj3, needInfer with
  | .arr rows, true =>
      let xf := fieldNameOpt payload ["x_field", "xKey", "xKeyField"]
      let yf := fieldNameOpt payload ["y_field", "yKey", "yKeyField"]
      let (x_ex, y_ex) := extract_xy_from_rows rows xf yf
      if !x_ex.isEmpty && !y_ex.isEmpty then
        (if xV.truthy then xV else .arr x_ex,
         if yV.truthy then yV else .arr (y_ex.map JVal.int))
      else (xV, yV)
  | _, _ => (xV, yV)

/-- `run_chart` after the template guard (lines 853-1156). -/
def run_chart_after_guard (payload : JVal) : ChartOutcome :=
  let (xV, yV) := chartInferXY payload
  chartStage (jGetD payload "type") xV yV (jGetD payload "labels") (jGetD payload "values")

/-- `run_chart` (lines 815-1156): the unresolved-template guard
(lines 836-851) posts the `fail` RPC and returns before anything is
rendered or uploaded; otherwise the data pipeline runs. -/
def run_chart (payload : JVal) : ChartOutcome :=
  if hasUnresolved (serializeL payload) then .failedTemplates
  else run_chart_after_guard payload

/-! ### Designer agent (`run_designer`, lines 525-683)

Only the failure structure is modelled: the section-rendering and LaTeX
pipeline always succeed here (their output bytes are irrelevant to the
claims), so the outcome records whether the agent raised before
rendering or proceeded to generate, upload and complete. -/

inductive DesignerOutcome where
  | raised
  | proceeded (sectionCount : Nat)

/-- The body of the `try` at lines 540-547: serialize the payload and
raise `ValueError` when an unresolved template remains. -/
def designerGuardCheck (payload : JVal) : Except Unit Unit :=
  if hasUnresolved (serializeL payload) then .error () else .ok ()

/-- Lines 539-550 as executed: the surrounding `except Exception: pass`
catches every exception of the block - including the `ValueError` the
block itself raises - so the guard never aborts the run. -/
def designerTemplateGuard (payload : JVal) : Except Unit Unit :=
  match designerGuardCheck payload with
  | .error _ => .ok ()
  | .ok _ => .ok ()

/-- `run_designer` (lines 525-683): empty `sections` raises; afterwards
the swallowed template guard runs, then the PDF is generated, uploaded
and completed. -/
def run_designer (payload : JVal) : DesignerOutcome :=
  let sections : List JVal := match jGetD payload "sections" with
    | .arr l => l
    | _ => []
  if sections.isEmpty then .raised
  else
    match designerTemplateGuard payload with
    | .error _ => .raised
    | .ok _ => .proceeded sections.length

/-! ### Validator agent (`run_validator`, lines 1393-1527)

The `errors.append(f"Row {i} ...")` calls are represented as structured
tags (row index + field) rather than formatted strings; `Except Unit`
models a raised `TypeError` (possible when a `min` bound is not a
number). -/

inductive VErr where
  | notDict (i : Nat)
  | missingField (i : Nat) (f : String)
  | typeNum (i : Nat) (f : String)
  | typeStr (i : Nat) (f : String)
deriving DecidableEq

inductive VWarn where
  | belowMin (i : Nat) (f : String)
deriving DecidableEq

/-- The row index an error refers to. -/
def VErr.row : VErr → Nat
  | .notDict i => i
  | .missingField i _ => i
  | .typeNum i _ => i
  | .typeStr i _ => i

/-- The JSON-Schema-ish `properties` map folded into the internal rule
form (shared by lines 1407-1417 and 1423-1433): non-dict schemas are
skipped, `required` membership and `type` in `("number", "string")` are
kept. -/
def normSchemaProps (props : List (String × JVal)) (required : List JVal) :
    List (String × JVal) :=
  props.filterMap (fun fs =>
    match fs.2 with
    | .obj schema =>
        let isReq := required.any (fun rv =>
          match rv with
          | .str t => t = fs.1
          | _ => false)
        let r1 : List (String × JVal) := if isReq then [("required", .bool true)] else []
        let r2 : List (String × JVal) := match JVal.get? schema "type" with
          | some (.str t) => if t = "number" || t = "string" then [("type", .str t)] else []
          | _ => []
        some (fs.1, .obj (r1 ++ r2))
    | _ => none)

/-- Rules normalisation (lines 1398-1436): the `items.properties` branch
(tried only when no top-level `properties` key exists), then the
top-level `properties` branch, else the rules object is left unchanged. -/
def normalize_rules (rules : JVal) : JVal :=
  match rules with
  | .obj kvs =>
      let viaItems : Option (List (String × JVal)) :=
        if JVal.hasKey kvs "properties" then none
        else
          match JVal.get? kvs "items" with
          | some (.obj items) =>
              (match JVal.get? items "properties" with
               | some (.obj props) =>
                   let required := match JVal.get? items "required" with
                     | some (.arr l) => l
                     | _ => []
                   some (normSchemaProps props required)
               | _ => none)
          | _ => none
      let normalized : Option (List (String × JVal)) :=
        match viaItems with
        | some n => some n
        | none =>
            match JVal.get? kvs "properties" with
            | some (.obj props) =>
                let required := match JVal.get? kvs "required" with
                  | some (.arr l) => l
                  | _ => []
                some (normSchemaProps props required)
            | _ => none
      match normalized with
      | some n => .obj n
      | none => .obj kvs
  | v => v

/-- `value < rule["min"]` for a numeric `value` (Python bools are ints);
a non-numeric bound raises `TypeError`. -/
def cmpMin (value : Int) (minV : JVal) : Except Unit Bool :=
  match minV with
  | .int m => .ok (decide (value < m))
  | .bool b => .ok (decide (value < (if b then 1 else 0)))
  | _ => .error ()

/-- `isinstance(value, (int, float))` on the embedding (bools are ints). -/
def isNumVal : JVal → Bool
  | .int _ => true
  | .bool _ => true
  | _ => false

/-- The numeric value behind `isNumVal`. -/
def numVal : JVal → Int
  | .int n => n
  | .bool b => if b then 1 else 0
  | _ => 0

/-- The `required`/presence check of lines 1452-1455: an error exactly
when the rule's `required` is truthy and the key is absent. -/
def requiredErrs (i : Nat) (item : List (String × JVal)) (f : String)
    (rkvs : List (String × JVal)) : List VErr :=
  if ((JVal.get? rkvs "required").getD .null).truthy && !(JVal.hasKey item f) then
    [.missingField i f]
  else []

/-- The `type` checks of lines 1456-1460 (both comparisons run; a truthy
non-string `type` matches neither). -/
def typeErrs (i : Nat) (item : List (String × JVal)) (f : String)
    (rkvs : List (String × JVal)) : List VErr :=
  let value := (JVal.get? item f).getD .null
  if (JVal.hasKey item f && !value.isNull) && ((JVal.get? rkvs "type").getD .null).truthy then
    (match (JVal.get? rkvs "type").getD .null with
     | .str t =>
         (if t = "number" && !isNumVal value then [.typeNum i f] else [])
           ++ (if t = "string" && !(match value with | .str _ => true | _ => false) then
                 [.typeStr i f]
               else [])
     | _ => [])
  else []

/-- One `(field, rule)` iteration of the inner loop (lines 1447-1463). -/
def validateField (i : Nat) (item : List (String × JVal)) (f : String) (rule : JVal) :
    Except Unit (List VErr × List VWarn) :=
  match rule with
  | .obj rkvs =>
      let value := (JVal.get? item f).getD .null
      let present := JVal.hasKey item f && !value.isNull
      let minV := (JVal.get? rkvs "min").getD .null
      if present && !minV.isNull && isNumVal value then
        match cmpMin (numVal value) minV with
        | .error _ => .error ()
        | .ok below =>
            .ok (requiredErrs i item f rkvs ++ typeErrs i item f rkvs,
              if below then [.belowMin i f] else [])
      else .ok (requiredErrs i item f rkvs ++ typeErrs i item f rkvs, [])
  | _ => .ok ([], [])

/-- The inner loop over `rules.items()` for row `i`. -/
def validateItemFields (i : Nat) (item : List (String × JVal)) :
    List (String × JVal) → Except Unit (List VErr × List VWarn)
  | [] => .ok ([], [])
  | (f, rule) :: rest =>
      match validateField i item f rule with
      | .error _ => .error ()
      | .ok (e1, w1) =>
          match validateItemFields i item rest with
          | .error _ => .error ()
          | .ok (e2, w2) => .ok (e1 ++ e2, w1 ++ w2)

/-- The outer loop over `enumerate(items)` (lines 1443-1463), starting at
row index `i`. -/
def validateItems (i : Nat) (rules : List (String × JVal)) :
    List JVal → Except Unit (List VErr × List VWarn)
  | [] => .ok ([], [])
  | item :: rest =>
      let head : Except Unit (List VErr × List VWarn) :=
        match item with
        | .obj kvs => validateItemFields i kvs rules
        | _ => .ok ([.notDict i], [])
      match head with
      | .error _ => .error ()
      | .ok (e1, w1) =>
          match validateItems (i + 1) rules rest with
          | .error _ => .error ()
          | .ok (e2, w2) => .ok (e1 ++ e2, w1 ++ w2)

/-- `data if isinstance(data, list) else [data]` (line 1442). -/
def pyItems (data : JVal) : List JVal :=
  match data with
  | .arr l => l
  | v => [v]

/-- The validator result fields the claims inspect. -/
structure VResult where
  valid : Bool
  errors : List VErr
  warnings : List VWarn

/-- `run_validator` (lines 1393-1527) up to the completion payload:
normalise rules, wrap a non-list `data` in a one-item list, run the rule
loop; `valid` is `len(errors) == 0`.  Iterating a non-dict rules value
raises. -/
def run_validator (data rules : JVal) : Except Unit VResult :=
  let rules2 := normalize_rules rules
  let items : List JVal := pyItems data
  match rules2 with
  | .obj rkvs =>
      match validateItems 0 rkvs items with
      | .error _ => .error ()
      | .ok (es, ws) => .ok { valid := es.isEmpty, errors := es, warnings := ws }
  | _ => .error ()

/-! ### Notifier recipient normalisation (`run_notifier`, lines 1981-2035) -/

/-- Recipient normalisation (lines 2007-2035).  A string is tried as a
JSON array/string via `json.loads`; when that does not yield a list or a
string (parse failure, another JSON type, or the empty string), control
reaches `parts = re.split(r"[\n,;]+", cleaned)` at line 2026 - but `re`
is never imported at module scope and `run_notifier` has no local
import, so that line raises `NameError` (modelled as `none`).  A
non-list non-string input becomes `[]`; finally every element is
`str(r).strip()`-coerced and empties (and `None`s) are dropped. -/
def normalize_recipients (recipients : JVal) : Option (List String) :=
  let viaJson : Option (List JVal) :=
    match recipients with
    | .str s =>
        let raw := pyStrip s.toList
        if raw.isEmpty then none
        else
          match parseJson (String.mk raw) with
          | some (.arr l) => some l
          | some (.str t) => some [.str t]
          | _ => none
    | .arr l => some l
    | _ => some []
  match viaJson with
  | none => none
  | some lst =>
      some (lst.filterMap (fun r =>
        if r.isNull then none
        else
          let t := pyStrip (pyStr r)
          if t.isEmpty then none else some (String.mk t)))

/-! ### Reviewer agent (`run_reviewer`, lines 688-809) -/

/-- `s.lower()` (ASCII mapping). -/
def pyLower (s : String) : String := String.mk (s.toList.map Char.toLower)

structure Review where
  score : Int
  decision : String

/-- `payload.get("score_threshold", 80)` as used by `score >=
score_threshold`: missing key defaults to 80, a numeric value (bools are
ints) is used, anything else makes the comparison raise (`none`). -/
def thresholdVal : Option JVal → Option Int
  | none => some 80
  | some (.int m) => some m
  | some (.bool b) => some (if b then 1 else 0)
  | some _ => none

/-- `run_reviewer` (lines 688-809).  `targetRow` is the
`SELECT status, result FROM tasks` row for the target task; `aiResp` is
the outcome of `ai_helper.generate_ai_response` (`.error` = raised).
The returned review keeps the fields the `review` RPC carries; `none`
models a raised exception (routed to the dispatcher). -/
def run_reviewer (nodeEnv : String) (payload : JVal) (targetRow : Option (String × JVal))
    (aiResp : Except Unit String) : Option Review :=
  if pyLower nodeEnv ≠ "production" then some { score := 90, decision := "APPROVE" }
  else
    let target := jGetD payload "target_task_id"
    if !target.truthy then some { score := 0, decision := "REJECT" }
    else
      match targetRow with
      | none => some { score := 0, decision := "REJECT" }
      | some (status, result) =>
          if status ≠ "SUCCESS" then some { score := 20, decision := "REJECT" }
          else if !result.truthy then some { score := 30, decision := "REJECT" }
          else
            let score : Int := match aiResp with
              | .ok resp =>
                  (match scoreSearch resp.toList with
                   | some n => (n : Int)
                   | none => 85)
              | .error _ => 90
            match thresholdVal (jGet payload "score_threshold") with
            | some thr =>
                some { score := score, decision := if score ≥ thr then "APPROVE" else "REJECT" }
            | none => none

/-! ### AI helper provider selection (`generate_ai_response`, lines 222-262) -/

inductive Provider where
  | perplexity
  | sambanova
  | gemini
deriving DecidableEq

/-- The provider configuration visible to `generate_ai_response`:
`AI_PROVIDER` and whether each lazy `_init_*` succeeds.  `geminiInit`
exists so that the gemini-only configuration is expressible. -/
structure AIConfig where
  aiProvider : String
  perplexityInit : Bool
  sambanovaInit : Bool
  geminiInit : Bool
  preferPerplexity : Bool

/-- Per-call outcomes of `generate_with_perplexity` /
`generate_with_sambanova` / `generate_with_gemini` (after their internal
retries); `.error` covers both `RateLimitException` and `AIException`,
which `generate_ai_response` handles identically (`continue`). -/
structure AIEnv where
  perplexityCall : Except Unit String
  sambanovaCall : Except Unit String
  geminiCall : Except Unit String

inductive AIResult where
  | ok (s : String)
  | allProvidersFailed
  | raisedProviderError
  | raisedNotConfigured

def providerCall (env : AIEnv) : Provider → Except Unit String
  | .perplexity => env.perplexityCall
  | .sambanova => env.sambanovaCall
  | .gemini => env.geminiCall

/-- The fallback loop of lines 245-260: invoke providers in order until
one succeeds, recording every provider actually invoked. -/
def tryProviders (env : AIEnv) : List Provider → AIResult × List Provider
  | [] => (.allProvidersFailed, [])
  | p :: rest =>
      match providerCall env p with
      | .ok s => (.ok s, [p])
      | .error _ =>
          let (res, invoked) := tryProviders env rest
          (res, p :: invoked)

/-- `generate_ai_response` (lines 222-262): the `AI_PROVIDER=perplexity`
short-circuit, then the ordered provider list (perplexity first when
preferred, sambanova, then perplexity if not already listed); the second
component lists the `generate_with_*` functions actually invoked. -/
def generate_ai_response (cfg : AIConfig) (env : AIEnv) : AIResult × List Provider :=
  if cfg.aiProvider = "perplexity" then
    if !cfg.perplexityInit then (.raisedNotConfigured, [])
    else
      match env.perplexityCall with
      | .ok s => (.ok s, [.perplexity])
      | .error _ => (.raisedProviderError, [.perplexity])
  else
    let provs : List Provider :=
      (if cfg.preferPerplexity && cfg.perplexityInit then [.perplexity] else [])
        ++ (if cfg.sambanovaInit then [.sambanova] else [])
        ++ (if cfg.perplexityInit && !(cfg.preferPerplexity && cfg.perplexityInit) then
              [.perplexity]
            else [])
    tryProviders env provs

/-! ### Dispatcher (`handle_message`, lines 2355-2620)

The queue channel, store and orchestrator are abstracted into a per-call
environment; the agent bodies are abstracted into their outcome
(`.ok` = returned, `.error` = raised), which is what the dispatcher
branches on.  The state carries the per-process `in_progress_tasks` set
(as a duplicate-free list) and the store's `retry_count` column. -/

inductive Ack where
  | ack
  | nackRequeue
deriving DecidableEq

structure DispatchEnv where
  ctx : Option String
  startResp : Except Unit Nat
  agentResult : Except Unit Unit

structure DispatchState where
  inProgress : List String
  retry : String → Nat

structure DispatchResult where
  state : DispatchState
  ack : Ack
  failRpc : Bool
  sleptSec : Nat

def MAX_RETRIES : Nat := 3

def RETRY_BACKOFF_SEC : Nat := 2

/-- `handle_message` (lines 2355-2620): duplicate suppression, context
load, ownership handshake, agent dispatch, and the retry/fail policy of
the `except`/`finally` blocks. -/
def handle_message (s : DispatchState) (task_id : String) (env : DispatchEnv) :
    DispatchResult :=
  if task_id ∈ s.inProgress then
    { state := s, ack := .ack, failRpc := false, sleptSec := 0 }
  else
    let ip1 := task_id :: s.inProgress
    match env.ctx with
    | none =>
        { state := { s with inProgress := ip1.erase task_id },
          ack := .ack, failRpc := false, sleptSec := 0 }
    | some _ =>
        match env.startResp with
        | .error _ =>
            { state := { s with inProgress := ip1.erase task_id },
              ack := .nackRequeue, failRpc := false, sleptSec := 0 }
        | .ok code =>
            if code ≠ 200 && code ≠ 409 then
              { state := { s with inProgress := ip1.erase task_id },
                ack := .ack, failRpc := false, sleptSec := 0 }
            else
              match env.agentResult with
              | .ok _ =>
                  { state := { s with inProgress := ip1.erase task_id },
                    ack := .ack, failRpc := false, sleptSec := 0 }
              | .error _ =>
                  let retries := s.retry task_id
                  let retry2 : String → Nat :=
                    fun t => if t = task_id then s.retry t + 1 else s.retry t
                  if retries + 1 ≥ MAX_RETRIES then
                    { state := { inProgress := ip1.erase task_id, retry := retry2 },
                      ack := .ack, failRpc := true, sleptSec := 0 }
                  else
                    { state := { inProgress := ip1.erase task_id, retry := retry2 },
                      ack := .nackRequeue, failRpc := false, sleptSec := RETRY_BACKOFF_SEC }

/-- The spec's internal rule form, stated from the spec's words
(`\x7bfield: \x7brequired?, type∈\x7bnumber,string\x7d, min?\x7d\x7d`):
a dict whose values are dicts using only the keys `required`, `type`,
`min`, with any `type` being `"number"` or `"string"`. -/
def isInternalForm : JVal → Bool
  | .obj kvs =>
      kvs.all (fun fr =>
        match fr.2 with
        | .obj rkvs =>
            rkvs.all (fun kv => kv.1 = "required" || kv.1 = "type" || kv.1 = "min")
              && (match JVal.get? rkvs "type" with
                  | some (.str t) => t = "number" || t = "string"
                  | none => true
                  | _ => false)
        | _ => false)
  | _ => false

/-- A remainder that cannot extend an integer token: empty, or headed by
something that is neither a digit nor `.`/`e`/`E`.  Every JSON delimiter
(`,`, `]`, `\x7d`, end of input) qualifies. -/
def numStop : List Char → Bool
  | [] => true
  | c :: _ => !isDigitC c && !(c = '.') && !(c = 'e') && !(c = 'E')

mutual

/-- No string anywhere in the value contains a backtick (the fence
character of `extract_json_from_response`'s first probe). -/
def jClean : JVal → Bool
  | .null => true
  | .bool _ => true
  | .int _ => true
  | .str s => !s.toList.contains (Char.ofNat 96)
  | .arr xs => jCleanItems xs
  | .obj kvs => jCleanFields kvs

def jCleanItems : List JVal → Bool
  | [] => true
  | x :: xs => jClean x && jCleanItems xs

def jCleanFields : List (String × JVal) → Bool
  | [] => true
  | (k, v) :: kvs => !k.toList.contains (Char.ofNat 96) && jClean v && jCleanFields kvs

end

def noDigitHead : List Char → Bool
  | [] => true
  | c :: _ => !isDigitC c

/-! ## Theorems -/

/-! ### Shared lemmas -/

theorem tryProviders_invoked_subset (env : AIEnv) :
    ∀ l : List Provider, ∀ p ∈ (tryProviders env l).2, p ∈ l := by
  intro l
  induction l with
  | nil => intro p hp; simp [tryProviders] at hp
  | cons q rest ih =>
      intro p hp
      simp only [tryProviders] at hp
      cases hq : providerCall env q with
      | ok s => rw [hq] at hp; simp at hp; simp [hp]
      | error e =>
          rw [hq] at hp
          simp only [List.mem_cons] at hp ⊢
          rcases hp with h | h
          · exact Or.inl h
          · exact Or.inr (ih p h)

/-! ### C10: `generate_ai_response` never invokes Gemini -/

/-- C10.  For every configuration and provider behaviour,
`generate_ai_response` only ever invokes the Perplexity and SambaNova
providers - `generate_with_gemini` is never among the invoked calls - and
when Gemini is the only configured provider while `AI_PROVIDER` is not
`"perplexity"`, it raises the all-providers-failed `AIException` even
though a provider is configured. -/
theorem generate_ai_response_never_gemini :
    (∀ (cfg : AIConfig) (env : AIEnv),
        Provider.gemini ∉ (generate_ai_response cfg env).2)
    ∧ (∀ (cfg : AIConfig) (env : AIEnv),
        cfg.aiProvider ≠ "perplexity" → cfg.perplexityInit = false →
        cfg.sambanovaInit = false → cfg.geminiInit = true →
        (generate_ai_response cfg env).1 = .allProvidersFailed) := by
  constructor
  · intro cfg env hmem
    by_cases hp : cfg.aiProvider = "perplexity"
    · simp only [generate_ai_response, if_pos hp] at hmem
      by_cases hi : cfg.perplexityInit
      · simp [hi] at hmem
        cases hc : env.perplexityCall <;> rw [hc] at hmem <;> simp at hmem
      · simp [hi] at hmem
    · simp only [generate_ai_response, if_neg hp] at hmem
      have hsub := tryProviders_invoked_subset env _ _ hmem
      simp only [List.mem_append] at hsub
      rcases hsub with (h | h) | h <;> split_ifs at h <;> simp at h
  · intro cfg env hp h1 h2 _
    simp [generate_ai_response, hp, h1, h2, tryProviders]

/-- Witness for C10 at the gemini-only configuration. -/
theorem generate_ai_response_never_gemini_witness :
    (generate_ai_response
        { aiProvider := "gemini", perplexityInit := false, sambanovaInit := false,
          geminiInit := true, preferPerplexity := true }
        { perplexityCall := .error (), sambanovaCall := .error (),
          geminiCall := .ok "hello" }).1 = .allProvidersFailed :=
  generate_ai_response_never_gemini.2 _ _ (by decide) rfl rfl rfl

/-! ### C2: the in-progress set is restored on every exit path -/

/-- C2.  Whatever the context-load, ownership-handshake and agent
outcomes, `handle_message` leaves `in_progress_tasks` exactly as it found
it: the `task_id` added on entry is removed again on every exit path
(duplicate drop, task-not-found, ownership refused, start network error,
agent success, agent failure with retry or permanent failure). -/
theorem handle_message_in_progress_restored
    (s : DispatchState) (t : String) (env : DispatchEnv) :
    (handle_message s t env).state.inProgress = s.inProgress := by
  obtain ⟨ctx, sr, ar⟩ := env
  by_cases hd : t ∈ s.inProgress
  · simp [handle_message, hd]
  · cases ctx with
    | none => simp [handle_message, hd]
    | some c =>
        cases sr with
        | error e => simp [handle_message, hd]
        | ok code =>
            cases ar with
            | ok u => simp [handle_message, hd] <;> split_ifs <;> simp
            | error e =>
                simp only [handle_message, hd]
                split_ifs <;> simp

/-! ### C3: retry policy on agent exceptions -/

/-- C3.  When the agent body raises, the dispatcher reads the current
retry count `R`, increments it, and either permanently fails
(`fail` RPC + ack) when `R + 1 ≥ MAX_RETRIES = 3` or sleeps
`RETRY_BACKOFF_SEC = 2` seconds and nacks with requeue; moreover the
worker never decreases any retry counter on any path. -/
theorem handle_message_retry_policy
    (s : DispatchState) (t : String) (env : DispatchEnv) (c : String) (code : Nat)
    (hdup : t ∉ s.inProgress)
    (hctx : env.ctx = some c)
    (hstart : env.startResp = .ok code)
    (hcode : code = 200 ∨ code = 409)
    (hagent : env.agentResult = .error ()) :
    ((handle_message s t env).state.retry t = s.retry t + 1)
    ∧ (s.retry t + 1 ≥ MAX_RETRIES →
        (handle_message s t env).failRpc = true ∧ (handle_message s t env).ack = .ack)
    ∧ (s.retry t + 1 < MAX_RETRIES →
        (handle_message s t env).failRpc = false
        ∧ (handle_message s t env).ack = .nackRequeue
        ∧ (handle_message s t env).sleptSec = RETRY_BACKOFF_SEC)
    ∧ (∀ (s2 : DispatchState) (t2 : String) (env2 : DispatchEnv) (u : String),
        s2.retry u ≤ (handle_message s2 t2 env2).state.retry u) := by
  obtain ⟨ctx, sr, ar⟩ := env
  simp only at hctx hstart hagent
  subst hctx; subst hstart; subst hagent
  have hcodeP : ¬(¬code = 200 ∧ ¬code = 409) := by
    rcases hcode with h | h <;> subst h <;> simp
  refine ⟨?_, ?_, ?_, ?_⟩
  · simp [handle_message, hdup, hcodeP]
    split_ifs <;> simp
  · intro hge
    constructor <;>
      simp [handle_message, hdup, hcodeP, hge]
  · intro hlt
    have hn : ¬ (s.retry t + 1 ≥ MAX_RETRIES) := by omega
    refine ⟨?_, ?_, ?_⟩ <;>
      simp [handle_message, hdup, hcodeP, hn]
  · intro s2 t2 env2 u
    obtain ⟨ctx2, sr2, ar2⟩ := env2
    by_cases hd2 : t2 ∈ s2.inProgress
    · simp [handle_message, hd2]
    · cases ctx2 with
      | none => simp [handle_message, hd2]
      | some c2 =>
          cases sr2 with
          | error e2 => simp [handle_message, hd2]
          | ok code2 =>
              cases ar2 with
              | ok u2 => simp only [handle_message, hd2]; split_ifs <;> simp
              | error e2 =>
                  simp only [handle_message, hd2]
                  split_ifs <;> simp <;> split_ifs <;> omega

/-- Witness for C3: first failure of a fresh task backs off and requeues;
the counter moved from 0 to 1. -/
theorem handle_message_retry_policy_witness :
    ((handle_message ⟨[], fun _ => 0⟩ "T1"
        ⟨some "chart", .ok 200, .error ()⟩).state.retry "T1" = 0 + 1)
    ∧ ((handle_message ⟨[], fun _ => 0⟩ "T1"
        ⟨some "chart", .ok 200, .error ()⟩).ack = .nackRequeue) := by
  have h := handle_message_retry_policy ⟨[], fun _ => 0⟩ "T1"
    ⟨some "chart", .ok 200, .error ()⟩ "chart" 200 (by simp) rfl rfl (Or.inl rfl) rfl
  exact ⟨h.1, (h.2.2.1 (by decide)).2.1⟩

/-! ### C5: the reviewer's score on AI failure (corrected: 90, not 85) -/

/-- Counterexample to C5 as stated: in the production path with a
`SUCCESS` target and a non-empty result, an AI failure yields score 90
(the `score = 90` fallback of the `except` handler), not 85. -/
theorem run_reviewer_ai_failure_counterexample :
    run_reviewer "production" (.obj [("target_task_id", .str "T1")])
        (some ("SUCCESS", .obj [("ok", .bool true)])) (.error ())
      = some { score := 90, decision := "APPROVE" }
    ∧ ((90 : Int) = 85 → False) :=
  ⟨rfl, by decide⟩

/-- C5 (amended).  In the production reviewer path with an existing
`SUCCESS` target and truthy result, an AI failure sets the score to 90
(85 is the initial default, overridden by the failure handler; it
survives only when the AI responds without a parseable `Score: N`), and
the decision is `APPROVE` exactly when the score reaches the threshold,
whose default is 80. -/
theorem run_reviewer_production_score
    (payload result : JVal) (aiResp : Except Unit String) (thr : Int)
    (htarget : (jGetD payload "target_task_id").truthy = true)
    (hres : result.truthy = true)
    (hthr : thresholdVal (jGet payload "score_threshold") = some thr) :
    thresholdVal none = some 80
    ∧ ∃ rv, run_reviewer "production" payload (some ("SUCCESS", result)) aiResp = some rv
        ∧ (aiResp = .error () → rv.score = 90)
        ∧ (∀ resp, aiResp = .ok resp → scoreSearch resp.toList = none → rv.score = 85)
        ∧ (rv.decision = "APPROVE" ↔ rv.score ≥ thr) := by
  refine ⟨rfl, ?_⟩
  simp only [run_reviewer]
  rw [if_neg (by decide)]
  simp only [htarget, Bool.not_true, Bool.false_eq_true, if_false]
  rw [if_neg (by decide : ¬ ("SUCCESS" ≠ "SUCCESS"))]
  simp only [hres, Bool.not_true, Bool.false_eq_true, if_false]
  rw [hthr]
  refine ⟨_, rfl, ?_, ?_, ?_⟩
  · intro ha; subst ha; rfl
  · intro resp ha hscore
    subst ha
    simp only [String.toList] at hscore
    simp [hscore]
  · dsimp only
    split_ifs with h
    · simpa using h
    · constructor
      · intro hc; exact absurd hc (by decide)
      · intro hc; exact absurd hc h

/-- Witness for C5 (amended) at a concrete production payload. -/
theorem run_reviewer_production_score_witness :
    ∃ rv, run_reviewer "production" (.obj [("target_task_id", .str "T1")])
        (some ("SUCCESS", .obj [("ok", .bool true)])) (.error ()) = some rv
      ∧ rv.score = 90 := by
  obtain ⟨-, rv, h1, h2, -, -⟩ := run_reviewer_production_score
    (.obj [("target_task_id", .str "T1")]) (.obj [("ok", .bool true)]) (.error ()) 80
    rfl rfl rfl
  exact ⟨rv, h1, h2 rfl⟩

/-! ### C8: rules normalisation is not idempotent on the internal form -/

/-- Counterexample to C8 as stated: the internal-form rules object with a
field literally named `properties` (a valid internal rule) is rewritten
by the normalisation step into the empty rules object. -/
theorem normalize_rules_counterexample :
    isInternalForm (.obj [("properties", .obj [("required", .bool true)])]) = true
    ∧ normalize_rules (.obj [("properties", .obj [("required", .bool true)])]) = .obj []
    ∧ (normalize_rules (.obj [("properties", .obj [("required", .bool true)])])
        = .obj [("properties", .obj [("required", .bool true)])] → False) := by
  refine ⟨rfl, rfl, ?_⟩
  intro h
  rw [show normalize_rules (.obj [("properties", .obj [("required", .bool true)])])
      = JVal.obj [] from rfl] at h
  injection h with h2
  exact List.noConfusion h2

theorem get?_eq_none_of_not_hasKey (kvs : List (String × JVal)) (k : String)
    (h : JVal.hasKey kvs k = false) : JVal.get? kvs k = none := by
  induction kvs with
  | nil => rfl
  | cons kv rest ih =>
      obtain ⟨k0, v⟩ := kv
      simp only [JVal.hasKey, Bool.or_eq_false_iff] at h
      simp only [JVal.get?]
      rw [if_neg (by simpa using h.1)]
      exact ih h.2

theorem get?_key_sat (kvs : List (String × JVal)) (k : String) (p : String → Bool)
    (hall : kvs.all (fun kv => p kv.1) = true) (hk : p k = false) :
    JVal.get? kvs k = none := by
  induction kvs with
  | nil => rfl
  | cons kv rest ih =>
      simp only [List.all_cons, Bool.and_eq_true] at hall
      simp only [JVal.get?]
      rw [if_neg ?_]
      · exact ih hall.2
      · intro he; rw [he] at hall; rw [hall.1] at hk; exact Bool.noConfusion hk

/-- C8 (amended).  The normalisation step is the identity on every
internal-form rules object that has no top-level field literally named
`properties`; the counterexample shows the restriction is necessary. -/
theorem normalize_rules_idempotent_on_internal
    (kvs : List (String × JVal))
    (hform : isInternalForm (.obj kvs) = true)
    (hprop : JVal.hasKey kvs "properties" = false) :
    normalize_rules (.obj kvs) = .obj kvs := by
  simp only [normalize_rules]
  rw [hprop]
  simp only [Bool.false_eq_true, if_false]
  have hpropget : JVal.get? kvs "properties" = none := get?_eq_none_of_not_hasKey kvs _ hprop
  have hitems : ∀ items, JVal.get? kvs "items" = some (.obj items) →
      JVal.get? items "properties" = none := by
    intro items hit
    simp only [isInternalForm, List.all_eq_true] at hform
    have hmem : ("items", JVal.obj items) ∈ kvs := by
      clear hform hprop hpropget
      induction kvs with
      | nil => exact absurd hit (by simp [JVal.get?])
      | cons kv rest ih =>
          obtain ⟨k1, v1⟩ := kv
          simp only [JVal.get?] at hit
          by_cases he : k1 = "items"
          · rw [if_pos he] at hit
            injection hit with hv
            rw [he, hv]
            exact List.mem_cons_self _ _
          · rw [if_neg he] at hit
            exact List.mem_cons_of_mem _ (ih hit)
    have hthis := hform _ hmem
    simp only [Bool.and_eq_true] at hthis
    exact get?_key_sat items "properties"
      (fun k => k = "required" || k = "type" || k = "min") hthis.1 (by decide)
  rcases hit : JVal.get? kvs "items" with _ | v
  · simp [hpropget]
  · cases v with
    | obj items =>
        have h2 := hitems items hit
        simp [h2, hpropget]
    | null => simp [hpropget]
    | bool b => simp [hpropget]
    | int n => simp [hpropget]
    | str s => simp [hpropget]
    | arr xs => simp [hpropget]

/-- Witness for C8 (amended) on a concrete internal-form rules object. -/
theorem normalize_rules_idempotent_on_internal_witness :
    normalize_rules (.obj [("age", .obj [("required", .bool true), ("type", .str "number"),
        ("min", .int 0)])])
      = .obj [("age", .obj [("required", .bool true), ("type", .str "number"),
        ("min", .int 0)])] :=
  normalize_rules_idempotent_on_internal _ rfl rfl

/-! ### C6: bar-chart validation -/

theorem chartValidate_bar_none_iff (ls : List String) (vn xn yn : List Int) (xc : List String) :
    chartValidate "bar" ls vn xn yn xc = none
      ↔ (yn ≠ [] ∧ ((xn ≠ [] ∧ xn.length = yn.length) ∨ (xn = [] ∧ xc.length = yn.length))) := by
  unfold chartValidate
  rw [if_neg (by decide : ¬ ("bar" = "pie")), if_neg (by decide : ¬ ("bar" = "histogram")),
    if_pos rfl]
  by_cases hy : yn = []
  · rw [if_pos (by simp [hy])]
    simp [hy]
  · rw [if_neg (by simp [hy])]
    by_cases hx : xn = []
    · rw [if_neg (by simp [hx])]
      by_cases hcat : xc = [] ∨ xc.length ≠ yn.length
      · rw [if_pos (by
          simp only [Bool.and_eq_true, Bool.or_eq_true, List.isEmpty_iff, decide_eq_true_eq]
          exact ⟨hx, by simpa using hcat⟩)]
        constructor
        · intro hcontra; exact absurd hcontra (by simp)
        · rintro ⟨-, (⟨hne, -⟩ | ⟨-, hlen⟩)⟩
          · exact absurd hx hne
          · rcases hcat with h | h
            · rw [h] at hlen
              exact absurd (List.length_eq_zero.mp hlen.symm) hy
            · exact absurd hlen h
      · push_neg at hcat
        rw [if_neg (by simp [hcat.1, hcat.2])]
        simp [hy, hx, hcat.2]
    · by_cases hlen : xn.length = yn.length
      · rw [if_neg (by simp [hlen]), if_neg (by simp [hx])]
        simp [hy, hx, hlen]
      · rw [if_pos (by
          simp only [Bool.and_eq_true, Bool.not_eq_true', List.isEmpty_eq_false_iff_exists_mem,
            decide_eq_true_eq]
          refine ⟨?_, hlen⟩
          rcases xn with _ | ⟨a, t⟩
          · exact absurd rfl hx
          · exact ⟨a, List.mem_cons_self a t⟩)]
        constructor
        · intro hcontra; exact absurd hcontra (by simp)
        · rintro ⟨-, (⟨-, h⟩ | ⟨he, -⟩)⟩
          · exact absurd h hlen
          · exact absurd he hx

theorem chartStage_bar_cases (x y labels values : JVal) :
    (chartValidate "bar" (coerce_label_list labels) (coerce_number_list values)
        (coerce_number_list x) (coerce_number_list y) (coerce_label_list x) = none
      → chartStage (.str "bar") x y labels values
          = .rendered "bar" (coerce_number_list y).length)
    ∧ (∀ e, chartValidate "bar" (coerce_label_list labels) (coerce_number_list values)
        (coerce_number_list x) (coerce_number_list y) (coerce_label_list x) = some e
      → chartStage (.str "bar") x y labels values = .failed e) := by
  have hty : chartTypeOf (.str "bar") = some "bar" := rfl
  have hsel : chartTypeSel "bar" (coerce_label_list labels) (coerce_number_list values)
      (coerce_number_list x) (coerce_number_list y) = "bar" := by
    simp [chartTypeSel]
  constructor
  · intro hv
    simp only [chartStage, hty, hsel, hv]
    rw [if_pos (by decide)]
    simp [chartDataPoints]
  · intro e hv
    simp only [chartStage, hty, hsel, hv]

/-- C6.  For chart type `bar`, the chart agent proceeds to render (with
`data_points` = length of the coerced numeric `y`) exactly when the
coerced numeric `y` list is non-empty and either the coerced numeric `x`
list matches its length, or there is no numeric `x` and the categorical
`x` labels match its length; otherwise it takes the `fail`-RPC path and
never reaches the PNG upload.  In particular `x = ["Mon", "Tue"]`,
`y = [1, 2]` renders and mismatched lengths fail. -/
theorem chart_bar_validation :
    (∀ x y labels values : JVal,
      (chartStage (.str "bar") x y labels values
          = .rendered "bar" (coerce_number_list y).length
        ∨ ∃ e, chartStage (.str "bar") x y labels values = .failed e)
      ∧ (chartStage (.str "bar") x y labels values
            = .rendered "bar" (coerce_number_list y).length
          ↔ (coerce_number_list y ≠ []
              ∧ ((coerce_number_list x ≠ []
                    ∧ (coerce_number_list x).length = (coerce_number_list y).length)
                 ∨ (coerce_number_list x = []
                    ∧ (coerce_label_list x).length = (coerce_number_list y).length)))))
    ∧ chartStage (.str "bar") (.arr [.str "Mon", .str "Tue"]) (.arr [.int 1, .int 2])
        .null .null = .rendered "bar" 2
    ∧ chartStage (.str "bar") (.arr [.str "Mon", .str "Tue", .str "Wed"])
        (.arr [.int 1, .int 2]) .null .null = .failed .barCatErr := by
  refine ⟨?_, rfl, rfl⟩
  intro x y labels values
  obtain ⟨hnone, hsome⟩ := chartStage_bar_cases x y labels values
  rcases hv : chartValidate "bar" (coerce_label_list labels) (coerce_number_list values)
      (coerce_number_list x) (coerce_number_list y) (coerce_label_list x) with _ | e
  · have hr := hnone hv
    refine ⟨Or.inl hr, ?_⟩
    rw [hr]
    simpa using (chartValidate_bar_none_iff _ _ _ _ _).mp hv
  · have hf := hsome e hv
    refine ⟨Or.inr ⟨e, hf⟩, ?_⟩
    rw [hf]
    constructor
    · intro hcontra; exact absurd hcontra (by simp)
    · intro hcond
      have := (chartValidate_bar_none_iff (coerce_label_list labels)
        (coerce_number_list values) (coerce_number_list x) (coerce_number_list y)
        (coerce_label_list x)).mpr hcond
      rw [hv] at this
      exact absurd this (by simp)

/-! ### C4: notifier recipient normalisation (code bug) -/

theorem stripBy_eq_rdropWhile_dropWhile (p : Char → Bool) (cs : List Char) :
    stripBy p cs = List.rdropWhile p (cs.dropWhile p) := by
  simp [stripBy, List.rdropWhile]

theorem dropWhile_rdropWhile_dropWhile (p : Char → Bool) (l : List Char) :
    List.dropWhile p (List.rdropWhile p (List.dropWhile p l))
      = List.rdropWhile p (List.dropWhile p l) := by
  rcases h : List.rdropWhile p (List.dropWhile p l) with _ | ⟨c, t⟩
  · rfl
  · have hpre : (c :: t) <+: List.dropWhile p l := h ▸ List.rdropWhile_prefix p _
    obtain ⟨s, hs⟩ := hpre
    have hid : List.dropWhile p (List.dropWhile p l) = List.dropWhile p l :=
      List.dropWhile_idempotent p l
    rw [← hs, List.cons_append] at hid
    have hc : p c = false := by
      by_contra hcc
      rw [List.dropWhile_cons] at hid
      rw [if_pos (by simpa using hcc)] at hid
      have hsub := List.Sublist.length_le (List.dropWhile_sublist (p := p) (l := t ++ s))
      rw [hid] at hsub
      simp at hsub
    rw [List.dropWhile_cons, if_neg (by simp [hc])]


theorem stripBy_idempotent (p : Char → Bool) (cs : List Char) :
    stripBy p (stripBy p cs) = stripBy p cs := by
  rw [stripBy_eq_rdropWhile_dropWhile, stripBy_eq_rdropWhile_dropWhile,
    dropWhile_rdropWhile_dropWhile, List.rdropWhile_idempotent]

/-- C4 (code bug).  `worker.py` never imports `re` at module scope and
`run_notifier` has no local import, so every string recipients input
that `json.loads` does not turn into a list or a string - the spec's
example `"[a@b.com; c@d.com]\nx@y.z"`, a bare address, any
bracketed/comma/semicolon/newline form - reaches line 2026 and raises
`NameError` instead of being normalized.  A JSON-array string and an
actual list are normalized to trimmed non-empty strings, but without
the deduplication the claim asserts. -/
theorem normalize_recipients_name_error :
    normalize_recipients (.str "[a@b.com; c@d.com]\nx@y.z") = none
    ∧ normalize_recipients (.str "a@b.com") = none
    ∧ normalize_recipients (.str "a@b.com, c@d.com") = none
    ∧ normalize_recipients (.str "[\"a@b.com\", \"a@b.com\", \"c@d.com\"]")
        = some ["a@b.com", "a@b.com", "c@d.com"]
    ∧ normalize_recipients (.arr [.str " a@b.com ", .str "a@b.com"])
        = some ["a@b.com", "a@b.com"] :=
  ⟨rfl, rfl, rfl, rfl, rfl⟩

/-! ### C1: the unresolved-template guard (code bug in the designer)

The chart agent's guard (lines 836-851) posts `fail` and returns before
any rendering.  The designer's guard (lines 539-550) raises its
`ValueError` inside the very `try` whose `except Exception: pass` was
meant to protect the `json.dumps` call, so the abort is swallowed and the
PDF is generated, uploaded and completed anyway - contradicting the
code's own `Fail fast on unresolved templates` comment. -/

/-- A designer payload still carrying an unresolved template. -/
def designer_failing_payload : JVal :=
  .obj [("title", .str "Report"),
        ("sections", .arr [.obj [("heading", .str "H"),
                                 ("content", .str "{{tasks.a.outputs.y}}")]])]

unseal hasUnresolved natDigs in
/-- C1.  The chart half holds: any chart payload whose serialization
retains a `\x7b\x7b...\x7d\x7d` template takes the `fail`-RPC path before
rendering.  The designer half is a code bug: on the failing payload the
serialization does retain a template and the guard check does flag it,
yet `run_designer` proceeds to render, upload and complete. -/
theorem designer_template_guard_swallowed :
    (∀ payload : JVal, hasUnresolved (serializeL payload) = true →
        run_chart payload = .failedTemplates)
    ∧ hasUnresolved (serializeL designer_failing_payload) = true
    ∧ designerGuardCheck designer_failing_payload = .error ()
    ∧ designerTemplateGuard designer_failing_payload = .ok ()
    ∧ run_designer designer_failing_payload = .proceeded 1 := by
  refine ⟨?_, ?_, ?_, rfl, ?_⟩
  · intro payload h
    simp [run_chart, h]
  · rfl
  · rfl
  · rfl

unseal hasUnresolved natDigs in
/-- Witness for C1's chart half at a concrete unresolved chart payload. -/
theorem designer_template_guard_swallowed_witness :
    run_chart (.obj [("title", .str "Latency"), ("type", .str "bar"),
        ("x", .arr [.str "a"]), ("y", .arr [.str "{{tasks.a.outputs.y}}"])])
      = .failedTemplates :=
  designer_template_guard_swallowed.1 _ rfl

/-! ### C7: required-by-presence in the validator -/

theorem mem_requiredErrs (i : Nat) (item : List (String × JVal)) (f : String)
    (rkvs : List (String × JVal)) :
    ∀ e ∈ requiredErrs i item f rkvs,
      e = VErr.missingField i f
      ∧ ((JVal.get? rkvs "required").getD .null).truthy = true
      ∧ JVal.hasKey item f = false := by
  intro e he
  unfold requiredErrs at he
  split_ifs at he with hc
  · simp only [List.mem_singleton] at he
    simp only [Bool.and_eq_true, Bool.not_eq_true'] at hc
    exact ⟨he, hc.1, hc.2⟩
  · simp at he

theorem requiredErrs_mem_iff (i : Nat) (item : List (String × JVal)) (f : String)
    (rkvs : List (String × JVal))
    (hreq : ((JVal.get? rkvs "required").getD .null).truthy = true) :
    VErr.missingField i f ∈ requiredErrs i item f rkvs ↔ JVal.hasKey item f = false := by
  unfold requiredErrs
  split_ifs with hc
  · simp only [Bool.and_eq_true, Bool.not_eq_true'] at hc
    simp [hc.2]
  · simp only [Bool.and_eq_true, Bool.not_eq_true', not_and] at hc
    simp [hc hreq]

theorem mem_typeErrs (i : Nat) (item : List (String × JVal)) (f : String)
    (rkvs : List (String × JVal)) :
    ∀ e ∈ typeErrs i item f rkvs, e = VErr.typeNum i f ∨ e = VErr.typeStr i f := by
  intro e he
  simp only [typeErrs] at he
  split_ifs at he with hc
  · rcases hT : (JVal.get? rkvs "type").getD .null with _ | b | n | t | xs | kv <;>
      rw [hT] at he
    · simp at he
    · simp at he
    · simp at he
    · rcases List.mem_append.mp he with he2 | he2 <;> split_ifs at he2 <;> simp at he2 <;>
        simp [he2]
    · simp at he
    · simp at he
  · simp at he

theorem validateField_ok_parts (i : Nat) (item : List (String × JVal)) (f : String)
    (rkvs : List (String × JVal)) (es : List VErr) (ws : List VWarn)
    (h : validateField i item f (.obj rkvs) = .ok (es, ws)) :
    es = requiredErrs i item f rkvs ++ typeErrs i item f rkvs := by
  simp only [validateField] at h
  split_ifs at h with hc
  · rcases hcmp : cmpMin (numVal ((JVal.get? item f).getD .null))
        ((JVal.get? rkvs "min").getD .null) with _ | below
    · rw [hcmp] at h; exact absurd h (by simp)
    · rw [hcmp] at h
      injection h with h1
      cases h1
      rfl
  · injection h with h1
    cases h1
    rfl

theorem validateField_err_shape (i : Nat) (item : List (String × JVal)) (f : String)
    (rule : JVal) (es : List VErr) (ws : List VWarn)
    (h : validateField i item f rule = .ok (es, ws)) :
    ∀ e ∈ es, e = .missingField i f ∨ e = .typeNum i f ∨ e = .typeStr i f := by
  intro e he
  cases rule with
  | obj rkvs =>
      rw [validateField_ok_parts i item f rkvs es ws h] at he
      rcases List.mem_append.mp he with he | he
      · exact Or.inl (mem_requiredErrs i item f rkvs e he).1
      · rcases mem_typeErrs i item f rkvs e he with h2 | h2
        · exact Or.inr (Or.inl h2)
        · exact Or.inr (Or.inr h2)
  | null => simp only [validateField] at h; injection h with h1; cases h1; simp at he
  | bool b => simp only [validateField] at h; injection h with h1; cases h1; simp at he
  | int n => simp only [validateField] at h; injection h with h1; cases h1; simp at he
  | str s => simp only [validateField] at h; injection h with h1; cases h1; simp at he
  | arr xs => simp only [validateField] at h; injection h with h1; cases h1; simp at he

theorem validateField_missing_iff (i : Nat) (item : List (String × JVal)) (f : String)
    (rkvs : List (String × JVal)) (es : List VErr) (ws : List VWarn)
    (h : validateField i item f (.obj rkvs) = .ok (es, ws))
    (hreq : ((JVal.get? rkvs "required").getD .null).truthy = true) :
    VErr.missingField i f ∈ es ↔ JVal.hasKey item f = false := by
  rw [validateField_ok_parts i item f rkvs es ws h, List.mem_append]
  constructor
  · rintro (hm | hm)
    · exact (requiredErrs_mem_iff i item f rkvs hreq).mp hm
    · rcases mem_typeErrs i item f rkvs _ hm with h2 | h2 <;> exact absurd h2 (by simp)
  · intro hk
    exact Or.inl ((requiredErrs_mem_iff i item f rkvs hreq).mpr hk)

theorem validateItemFields_ok_cons (i : Nat) (item : List (String × JVal)) (f0 : String)
    (rule0 : JVal) (rest : List (String × JVal)) (es : List VErr) (ws : List VWarn)
    (h : validateItemFields i item ((f0, rule0) :: rest) = .ok (es, ws)) :
    ∃ e1 w1 e2 w2, validateField i item f0 rule0 = .ok (e1, w1)
      ∧ validateItemFields i item rest = .ok (e2, w2)
      ∧ es = e1 ++ e2 ∧ ws = w1 ++ w2 := by
  simp only [validateItemFields] at h
  rcases h1 : validateField i item f0 rule0 with u | ⟨e1, w1⟩
  · rw [h1] at h; exact absurd h (by simp)
  · rw [h1] at h
    rcases h2 : validateItemFields i item rest with u | ⟨e2, w2⟩
    · rw [h2] at h; exact absurd h (by simp)
    · rw [h2] at h
      injection h with h3
      cases h3
      exact ⟨e1, w1, e2, w2, rfl, rfl, rfl, rfl⟩

theorem validateItemFields_err_fields (i : Nat) (item : List (String × JVal)) :
    ∀ (rules : List (String × JVal)) (es : List VErr) (ws : List VWarn),
    validateItemFields i item rules = .ok (es, ws) →
    ∀ e ∈ es, ∃ g, g ∈ rules.map Prod.fst
      ∧ (e = .missingField i g ∨ e = .typeNum i g ∨ e = .typeStr i g) := by
  intro rules
  induction rules with
  | nil =>
      intro es ws h e he
      simp only [validateItemFields] at h
      injection h with h1
      cases h1
      simp at he
  | cons kv rest ih =>
      obtain ⟨f0, rule0⟩ := kv
      intro es ws h e he
      obtain ⟨e1, w1, e2, w2, h1, h2, hes, -⟩ := validateItemFields_ok_cons _ _ _ _ _ _ _ h
      subst hes
      rcases List.mem_append.mp he with he2 | he2
      · exact ⟨f0, by simp, validateField_err_shape _ _ _ _ _ _ h1 e he2⟩
      · obtain ⟨g, hg, hshape⟩ := ih e2 w2 h2 e he2
        exact ⟨g, by simp [hg], hshape⟩

theorem validateItemFields_err_row (i : Nat) (item : List (String × JVal))
    (rules : List (String × JVal)) (es : List VErr) (ws : List VWarn)
    (h : validateItemFields i item rules = .ok (es, ws)) :
    ∀ e ∈ es, e.row = i := by
  intro e he
  obtain ⟨g, -, hshape⟩ := validateItemFields_err_fields i item rules es ws h e he
  rcases hshape with h2 | h2 | h2 <;> rw [h2] <;> rfl

theorem validateItemFields_missing_iff :
    ∀ (rules : List (String × JVal)) (i : Nat) (item : List (String × JVal)) (f : String)
      (rkv : List (String × JVal)) (es : List VErr) (ws : List VWarn),
    validateItemFields i item rules = .ok (es, ws) →
    (rules.map Prod.fst).Nodup →
    JVal.get? rules f = some (.obj rkv) →
    ((JVal.get? rkv "required").getD .null).truthy = true →
    (VErr.missingField i f ∈ es ↔ JVal.hasKey item f = false) := by
  intro rules
  induction rules with
  | nil =>
      intro i item f rkv es ws h hnd hget hreq
      simp [JVal.get?] at hget
  | cons kv rest ih =>
      obtain ⟨f0, rule0⟩ := kv
      intro i item f rkv es ws h hnd hget hreq
      obtain ⟨e1, w1, e2, w2, h1, h2, hes, -⟩ := validateItemFields_ok_cons _ _ _ _ _ _ _ h
      subst hes
      rw [List.mem_append]
      simp only [List.map_cons, List.nodup_cons] at hnd
      by_cases hf : f0 = f
      · subst hf
        simp [JVal.get?] at hget
        subst hget
        constructor
        · rintro (hm | hm)
          · exact (validateField_missing_iff _ _ _ _ _ _ h1 hreq).mp hm
          · obtain ⟨g, hg, hshape⟩ := validateItemFields_err_fields _ _ _ _ _ h2 _ hm
            have : g = f0 := by
              rcases hshape with h3 | h3 | h3 <;> first | (injection h3 with _ h4; exact h4.symm) | exact absurd h3 (by simp)
            rw [this] at hg
            exact absurd hg hnd.1
        · intro hk
          exact Or.inl ((validateField_missing_iff _ _ _ _ _ _ h1 hreq).mpr hk)
      · simp only [JVal.get?, if_neg hf] at hget
        constructor
        · rintro (hm | hm)
          · rcases validateField_err_shape _ _ _ _ _ _ h1 _ hm with h3 | h3 | h3 <;>
              first
              | (injection h3 with _ h4; exact absurd h4.symm hf)
              | exact absurd h3 (by simp)
          · exact (ih i item f rkv e2 w2 h2 hnd.2 hget hreq).mp hm
        · intro hk
          exact Or.inr ((ih i item f rkv e2 w2 h2 hnd.2 hget hreq).mpr hk)

theorem validateItems_ok_cons (k : Nat) (rules : List (String × JVal)) (item0 : JVal)
    (rest : List JVal) (es : List VErr) (ws : List VWarn)
    (h : validateItems k rules (item0 :: rest) = .ok (es, ws)) :
    ∃ e1 w1 e2 w2,
      (match item0 with
       | .obj kvs => validateItemFields k kvs rules
       | _ => Except.ok ([.notDict k], [])) = .ok (e1, w1)
      ∧ validateItems (k + 1) rules rest = .ok (e2, w2)
      ∧ es = e1 ++ e2 ∧ ws = w1 ++ w2 := by
  simp only [validateItems] at h
  rcases h1 : (match item0 with
      | .obj kvs => validateItemFields k kvs rules
      | _ => Except.ok ([VErr.notDict k], ([] : List VWarn))) with u | ⟨e1, w1⟩
  · rw [h1] at h; exact absurd h (by simp)
  · rw [h1] at h
    rcases h2 : validateItems (k + 1) rules rest with u | ⟨e2, w2⟩
    · rw [h2] at h; exact absurd h (by simp)
    · rw [h2] at h
      injection h with h3
      cases h3
      exact ⟨e1, w1, e2, w2, h1, rfl, rfl, rfl⟩

theorem validateItems_head_err_row (k : Nat) (rules : List (String × JVal)) (item0 : JVal)
    (e1 : List VErr) (w1 : List VWarn)
    (h : (match item0 with
       | .obj kvs => validateItemFields k kvs rules
       | _ => Except.ok ([.notDict k], [])) = .ok (e1, w1)) :
    ∀ e ∈ e1, e.row = k := by
  intro e he
  rcases item0 with _ | b | n | s | xs | kvs <;>
    simp only at h <;>
    first
    | (injection h with h1; cases h1; simp only [List.mem_singleton] at he; rw [he]; rfl)
    | exact validateItemFields_err_row _ _ _ _ _ h e he

theorem validateItems_err_row_ge :
    ∀ (items : List JVal) (k : Nat) (rules : List (String × JVal)) (es : List VErr)
      (ws : List VWarn),
    validateItems k rules items = .ok (es, ws) → ∀ e ∈ es, k ≤ e.row := by
  intro items
  induction items with
  | nil =>
      intro k rules es ws h e he
      simp only [validateItems] at h
      injection h with h1
      cases h1
      simp at he
  | cons item0 rest ih =>
      intro k rules es ws h e he
      obtain ⟨e1, w1, e2, w2, h1, h2, hes, -⟩ := validateItems_ok_cons _ _ _ _ _ _ h
      subst hes
      rcases List.mem_append.mp he with he2 | he2
      · rw [validateItems_head_err_row _ _ _ _ _ h1 e he2]
      · have := ih (k + 1) rules e2 w2 h2 e he2
        omega

theorem validateItems_missing_iff :
    ∀ (items : List JVal) (k i : Nat) (rules : List (String × JVal)) (f : String)
      (item rkv : List (String × JVal)) (es : List VErr) (ws : List VWarn),
    validateItems k rules items = .ok (es, ws) →
    (rules.map Prod.fst).Nodup →
    items[i]? = some (.obj item) →
    JVal.get? rules f = some (.obj rkv) →
    ((JVal.get? rkv "required").getD .null).truthy = true →
    (VErr.missingField (k + i) f ∈ es ↔ JVal.hasKey item f = false) := by
  intro items
  induction items with
  | nil =>
      intro k i rules f item rkv es ws h hnd hget hrule hreq
      simp at hget
  | cons item0 rest ih =>
      intro k i rules f item rkv es ws h hnd hget hrule hreq
      obtain ⟨e1, w1, e2, w2, h1, h2, hes, -⟩ := validateItems_ok_cons _ _ _ _ _ _ h
      subst hes
      rw [List.mem_append]
      cases i with
      | zero =>
          simp only [List.getElem?_cons_zero, Option.some.injEq] at hget
          subst hget
          simp only at h1
          constructor
          · rintro (hm | hm)
            · exact (validateItemFields_missing_iff rules k item f rkv e1 w1 h1 hnd hrule
                hreq).mp (by simpa using hm)
            · have hge := validateItems_err_row_ge rest (k + 1) rules e2 w2 h2 _ hm
              simp only [VErr.row] at hge
              omega
          · intro hk
            exact Or.inl (by
              simpa using (validateItemFields_missing_iff rules k item f rkv e1 w1 h1 hnd
                hrule hreq).mpr hk)
      | succ j =>
          simp only [List.getElem?_cons_succ] at hget
          constructor
          · rintro (hm | hm)
            · have hrow := validateItems_head_err_row _ _ _ _ _ h1 _ hm
              simp only [VErr.row] at hrow
              omega
            · have harith : k + (j + 1) = (k + 1) + j := by omega
              rw [harith] at hm
              exact (ih (k + 1) j rules f item rkv e2 w2 h2 hnd hget hrule hreq).mp hm
          · intro hk
            refine Or.inr ?_
            have harith : k + (j + 1) = (k + 1) + j := by omega
            rw [harith]
            exact (ih (k + 1) j rules f item rkv e2 w2 h2 hnd hget hrule hreq).mpr hk

/-- C7.  The validator emits a missing-required-field error for row `i`
and field `f` exactly when the key `f` is absent from the (dict) item at
row `i` - presence with any value, `0` included, never produces one -
and the result's `valid` flag is `true` exactly when the errors list is
empty. -/
theorem validator_required_by_presence :
    (∀ (data rules : JVal) (res : VResult),
      run_validator data rules = .ok res → (res.valid = true ↔ res.errors = []))
    ∧ (∀ (data rules : JVal) (res : VResult) (rkvs : List (String × JVal))
        (i : Nat) (f : String) (item rkv : List (String × JVal)),
      run_validator data rules = .ok res →
      normalize_rules rules = .obj rkvs →
      (rkvs.map Prod.fst).Nodup →
      (pyItems data)[i]? = some (.obj item) →
      JVal.get? rkvs f = some (.obj rkv) →
      ((JVal.get? rkv "required").getD .null).truthy = true →
      (VErr.missingField i f ∈ res.errors ↔ JVal.hasKey item f = false)) := by
  constructor
  · intro data rules res h
    unfold run_validator at h
    rcases hnr : normalize_rules rules with _ | b | n | s | xs | rkvs <;> rw [hnr] at h <;>
      simp only at h
    · exact absurd h (by simp)
    · exact absurd h (by simp)
    · exact absurd h (by simp)
    · exact absurd h (by simp)
    · exact absurd h (by simp)
    · rcases hv : validateItems 0 rkvs (pyItems data) with u | ⟨es, ws⟩ <;> rw [hv] at h
      · exact absurd h (by simp)
      · injection h with h1
        rw [← h1]
        simp [List.isEmpty_iff]
  · intro data rules res rkvs i f item rkv h hnr hnd hget hrule hreq
    unfold run_validator at h
    rw [hnr] at h
    simp only at h
    rcases hv : validateItems 0 rkvs (pyItems data) with u | ⟨es, ws⟩ <;> rw [hv] at h
    · exact absurd h (by simp)
    · injection h with h1
      rw [← h1]
      have := validateItems_missing_iff (pyItems data) 0 i rkvs f item rkv es ws hv hnd
        hget hrule hreq
      simpa using this

/-- Witness for C7: a present key with value `0` yields no error and a
valid result; the membership equivalence holds at that row/field. -/
theorem validator_required_by_presence_witness :
    run_validator (.arr [.obj [("a", .int 0)]]) (.obj [("a", .obj [("required", .bool true)])])
      = .ok { valid := true, errors := [], warnings := [] }
    ∧ (VErr.missingField 0 "a" ∈ ([] : List VErr) ↔ JVal.hasKey [("a", JVal.int 0)] "a" = false) := by
  refine ⟨rfl, ?_⟩
  have h := validator_required_by_presence.2 (.arr [.obj [("a", .int 0)]])
    (.obj [("a", .obj [("required", .bool true)])])
    { valid := true, errors := [], warnings := [] }
    [("a", .obj [("required", .bool true)])] 0 "a" [("a", .int 0)]
    [("required", .bool true)] rfl rfl (by simp) rfl rfl rfl
  exact h

/-! ### C9: decimal-digit lemmas -/

theorem digitCh_isDigit (k : Nat) (h : k < 10) :
    isDigitC (Char.ofNat ('0'.toNat + k)) = true := by
  interval_cases k <;> decide

theorem digitCh_val (k : Nat) (h : k < 10) :
    (Char.ofNat ('0'.toNat + k)).toNat - '0'.toNat = k := by
  interval_cases k <;> decide

theorem natDigs_ne_nil (n : Nat) : natDigs n ≠ [] := by
  rw [natDigs]
  split_ifs <;> simp

theorem natDigs_all_digit (n : Nat) : ∀ c ∈ natDigs n, isDigitC c = true := by
  induction n using Nat.strongRecOn with
  | _ n ih =>
      rw [natDigs]
      split_ifs with h
      · intro c hc
        simp only [List.mem_singleton] at hc
        subst hc
        exact digitCh_isDigit _ (Nat.mod_lt _ (by omega))
      · intro c hc
        rcases List.mem_append.mp hc with hc | hc
        · exact ih (n / 10) (by omega) c hc
        · simp only [List.mem_singleton] at hc
          subst hc
          exact digitCh_isDigit _ (Nat.mod_lt _ (by omega))

theorem natDigs_head_ne_zero (n : Nat) (hn : 1 ≤ n) :
    ∀ d ds, natDigs n = d :: ds → d ≠ '0' := by
  induction n using Nat.strongRecOn with
  | _ n ih =>
      rw [natDigs]
      split_ifs with h
      · intro d ds hd
        injection hd with hd1 _
        subst hd1
        have : n % 10 = n := Nat.mod_eq_of_lt h
        rw [this]
        interval_cases n <;> decide
      · intro d ds hd
        obtain ⟨d0, ds0, h0⟩ : ∃ d0 ds0, natDigs (n / 10) = d0 :: ds0 := by
          rcases hnd : natDigs (n / 10) with _ | ⟨a, b⟩
          · exact absurd hnd (natDigs_ne_nil _)
          · exact ⟨a, b, rfl⟩
        rw [h0] at hd
        injection hd with hd1 _
        subst hd1
        exact ih (n / 10) (by omega) (by omega) d0 ds0 h0

theorem natDigs_zero_single (n : Nat) (d : Char) (ds : List Char)
    (h : natDigs n = d :: ds) (hd : d = '0') : ds = [] := by
  rcases Nat.eq_zero_or_pos n with h0 | h0
  · subst h0
    rw [show natDigs 0 = ['0'] from by rw [natDigs]; rfl] at h
    injection h with _ h2
    exact h2.symm
  · exact absurd hd (natDigs_head_ne_zero n h0 d ds h)

theorem digsVal_append_one (xs : List Char) (c : Char) :
    digsVal (xs ++ [c]) = digsVal xs * 10 + (c.toNat - '0'.toNat) := by
  simp [digsVal, List.foldl_append]

theorem digsVal_natDigs (n : Nat) : digsVal (natDigs n) = n := by
  induction n using Nat.strongRecOn with
  | _ n ih =>
      rw [natDigs]
      split_ifs with h
      · simp only [digsVal, List.foldl_cons, List.foldl_nil]
        rw [Nat.zero_mul, Nat.zero_add, digitCh_val _ (Nat.mod_lt _ (by omega))]
        omega
      · rw [digsVal_append_one, ih (n / 10) (by omega),
          digitCh_val _ (Nat.mod_lt _ (by omega))]
        omega

/-! ### C9: token lemmas -/

/-- The head of the remainder is no digit. -/
theorem takeDigs_stop (cs : List Char) (h : noDigitHead cs = true) :
    takeDigs cs = ([], cs) := by
  cases cs with
  | nil => rfl
  | cons c t =>
      simp only [noDigitHead, Bool.not_eq_true'] at h
      simp [takeDigs, h]

theorem takeDigs_append (ds : List Char) (hds : ∀ c ∈ ds, isDigitC c = true)
    (rest : List Char) (hrest : noDigitHead rest = true) :
    takeDigs (ds ++ rest) = (ds, rest) := by
  induction ds with
  | nil => simpa using takeDigs_stop rest hrest
  | cons c t ih =>
      have hc : isDigitC c = true := hds c (by simp)
      have ht := ih (fun x hx => hds x (by simp [hx]))
      simp [takeDigs, hc, ht]

theorem numStop_noDigitHead (rest : List Char) (h : numStop rest = true) :
    noDigitHead rest = true := by
  cases rest with
  | nil => rfl
  | cons c t =>
      simp only [numStop, Bool.and_eq_true, Bool.not_eq_true'] at h
      simp [noDigitHead, h.1.1.1]

/-- Number token round-trip: parsing the serialized integer recovers it. -/
theorem parseNumTok_intChars (i : Int) (rest : List Char) (h : numStop rest = true) :
    parseNumTok (intChars i ++ rest) = some (i, rest) := by
  obtain ⟨d, ds, hds⟩ : ∃ d ds, natDigs i.natAbs = d :: ds := by
    rcases hnd : natDigs i.natAbs with _ | ⟨a, b⟩
    · exact absurd hnd (natDigs_ne_nil _)
    · exact ⟨a, b, rfl⟩
  have hdig : ∀ c ∈ d :: ds, isDigitC c = true := by
    rw [← hds]; exact natDigs_all_digit i.natAbs
  have hlead2 : (decide (d = '0') && !ds.isEmpty) = false := by
    by_cases hd0 : d = '0'
    · rw [natDigs_zero_single i.natAbs d ds hds hd0]; simp
    · simp [hd0]
  have hval : digsVal (d :: ds) = i.natAbs := by rw [← hds, digsVal_natDigs]
  have htd : takeDigs (d :: (ds ++ rest)) = (d :: ds, rest) := by
    have := takeDigs_append (d :: ds) hdig rest (numStop_noDigitHead rest h)
    rwa [List.cons_append] at this
  have hd1 : isDigitC d = true := hdig d (by simp)
  have hnotminus : ¬ (d = '-') := by
    intro hc; rw [hc] at hd1; exact absurd hd1 (by decide)
  have hrest : rest = [] ∨ ∃ c t, rest = c :: t
      ∧ ¬ ((decide (c = '.') || decide (c = 'e') || decide (c = 'E')) = true) := by
    cases rest with
    | nil => exact Or.inl rfl
    | cons c t =>
        simp only [numStop, Bool.and_eq_true, Bool.not_eq_true',
          decide_eq_false_iff_not] at h
        exact Or.inr ⟨c, t, rfl, by simp [h.1.1.2, h.1.2, h.2]⟩
  by_cases hneg : i < 0
  · rw [show intChars i ++ rest = '-' :: (d :: (ds ++ rest)) from by
      simp [intChars, hneg, hds]]
    simp only [parseNumTok]
    rw [if_pos trivial]
    simp only [htd, hlead2, Bool.false_eq_true, if_false]
    rcases hrest with hr | ⟨c, t, hr, hcond⟩ <;> subst hr
    · show some (-(digsVal (d :: ds) : Int), ([] : List Char)) = some (i, [])
      rw [hval]
      simp only [Option.some.injEq, Prod.mk.injEq]
      exact ⟨by omega, trivial⟩
    · show (if (decide (c = '.') || decide (c = 'e') || decide (c = 'E')) = true then none
          else some (-(digsVal (d :: ds) : Int), c :: t)) = some (i, c :: t)
      rw [if_neg hcond, hval]
      simp only [Option.some.injEq, Prod.mk.injEq]
      exact ⟨by omega, trivial⟩
  · rw [show intChars i ++ rest = d :: (ds ++ rest) from by
      simp [intChars, hneg, hds]]
    simp only [parseNumTok]
    rw [if_neg hnotminus]
    simp only [htd, hlead2, Bool.false_eq_true, if_false]
    rcases hrest with hr | ⟨c, t, hr, hcond⟩ <;> subst hr
    · show some ((digsVal (d :: ds) : Int), ([] : List Char)) = some (i, [])
      rw [hval]
      simp only [Option.some.injEq, Prod.mk.injEq]
      exact ⟨by omega, trivial⟩
    · show (if (decide (c = '.') || decide (c = 'e') || decide (c = 'E')) = true then none
          else some ((digsVal (d :: ds) : Int), c :: t)) = some (i, c :: t)
      rw [if_neg hcond, hval]
      simp only [Option.some.injEq, Prod.mk.injEq]
      exact ⟨by omega, trivial⟩

theorem hexv_hexCh (n : Nat) (h : n < 16) : hexv (hexCh n) = some n := by
  interval_cases n <;> decide

theorem psb_quote (acc L : List Char) :
    parseStrBody acc ('"' :: L) = some (String.mk acc.reverse, L) := by
  rw [parseStrBody.eq_def]; simp

theorem psb_esc (acc : List Char) (e ch : Char) (L : List Char)
    (hu : ¬ e = 'u') (hch : unescCh e = some ch) :
    parseStrBody acc ('\\' :: e :: L) = parseStrBody (ch :: acc) L := by
  rw [parseStrBody.eq_def]; simp [hu, hch]

theorem psb_plain (acc : List Char) (c : Char) (L : List Char)
    (h1 : ¬ c = '"') (h2 : ¬ c = '\\') (h3 : ¬ c.toNat < 32) :
    parseStrBody acc (c :: L) = parseStrBody (c :: acc) L := by
  rw [parseStrBody.eq_def]; simp [h1, h2, h3]

theorem psb_u (acc : List Char) (n : Nat) (L : List Char) (h : n < 32) :
    parseStrBody acc ('\\' :: 'u' :: '0' :: '0' :: hexCh (n / 16) :: hexCh (n % 16) :: L)
      = parseStrBody (Char.ofNat n :: acc) L := by
  rw [parseStrBody.eq_def]
  simp [hexv_hexCh (n / 16) (by omega), hexv_hexCh (n % 16) (by omega),
    show hexv '0' = some 0 from by decide]
  rw [show n / 16 * 16 + n % 16 = n from by omega]

theorem parseStrBody_flat (l : List Char) : ∀ acc rest : List Char,
    parseStrBody acc (l.flatMap escChar ++ '"' :: rest)
      = some (String.mk (acc.reverse ++ l), rest) := by
  induction l with
  | nil => intro acc rest; simp [psb_quote]
  | cons c t ih =>
      intro acc rest
      rw [List.flatMap_cons, List.append_assoc]
      by_cases h1 : c = '"'
      · subst h1
        rw [show escChar '"' = ['\\', '"'] from by decide]
        simp only [List.cons_append, List.nil_append]
        rw [psb_esc acc '"' '"' _ (by decide) (by decide), ih]
        simp
      · by_cases h2 : c = '\\'
        · subst h2
          rw [show escChar '\\' = ['\\', '\\'] from by decide]
          simp only [List.cons_append, List.nil_append]
          rw [psb_esc acc '\\' '\\' _ (by decide) (by decide), ih]
          simp
        · by_cases h3 : c = '\n'
          · subst h3
            rw [show escChar '\n' = ['\\', 'n'] from by decide]
            simp only [List.cons_append, List.nil_append]
            rw [psb_esc acc 'n' '\n' _ (by decide) (by decide), ih]
            simp
          · by_cases h4 : c = '\r'
            · subst h4
              rw [show escChar '\r' = ['\\', 'r'] from by decide]
              simp only [List.cons_append, List.nil_append]
              rw [psb_esc acc 'r' '\r' _ (by decide) (by decide), ih]
              simp
            · by_cases h5 : c = '\t'
              · subst h5
                rw [show escChar '\t' = ['\\', 't'] from by decide]
                simp only [List.cons_append, List.nil_append]
                rw [psb_esc acc 't' '\t' _ (by decide) (by decide), ih]
                simp
              · by_cases h6 : c = Char.ofNat 8
                · subst h6
                  rw [show escChar (Char.ofNat 8) = ['\\', 'b'] from by decide]
                  simp only [List.cons_append, List.nil_append]
                  rw [psb_esc acc 'b' (Char.ofNat 8) _ (by decide) (by decide), ih]
                  simp
                · by_cases h7 : c = Char.ofNat 12
                  · subst h7
                    rw [show escChar (Char.ofNat 12) = ['\\', 'f'] from by decide]
                    simp only [List.cons_append, List.nil_append]
                    rw [psb_esc acc 'f' (Char.ofNat 12) _ (by decide) (by decide), ih]
                    simp
                  · by_cases h8 : c.toNat < 32
                    · rw [show escChar c
                          = ['\\', 'u', '0', '0', hexCh (c.toNat / 16), hexCh (c.toNat % 16)]
                        from by simp [escChar, h1, h2, h3, h4, h5, h6, h7, h8]]
                      simp only [List.cons_append, List.nil_append]
                      rw [psb_u acc c.toNat _ h8, Char.ofNat_toNat, ih]
                      simp
                    · rw [show escChar c = [c] from by
                        simp [escChar, h1, h2, h3, h4, h5, h6, h7, h8]]
                      simp only [List.cons_append, List.nil_append]
                      rw [psb_plain acc c _ h1 h2 h8, ih]
                      simp

theorem skipWsL_cons_not (c : Char) (t : List Char) (h : jsonWs c = false) :
    skipWsL (c :: t) = c :: t := by
  simp [skipWsL, h]

theorem skipWsL_space (t : List Char) : skipWsL (' ' :: t) = skipWsL t := by
  simp [skipWsL, jsonWs]

theorem isDigitC_ne (d : Char) (h : isDigitC d = true) (x : Char)
    (hx : isDigitC x = false) : ¬ d = x := by
  intro he; rw [he, hx] at h; exact Bool.false_ne_true h

theorem isDigitC_not_ws (d : Char) (h : isDigitC d = true) : jsonWs d = false := by
  simp only [jsonWs, Bool.or_eq_false_iff, decide_eq_false_iff_not]
  exact ⟨⟨⟨isDigitC_ne d h ' ' (by decide), isDigitC_ne d h '\t' (by decide)⟩,
    isDigitC_ne d h '\n' (by decide)⟩, isDigitC_ne d h '\r' (by decide)⟩

theorem parseStrBody_serStr (s : String) (rest : List Char) :
    parseStrBody [] (s.toList.flatMap escChar ++ '"' :: rest) = some (s, rest) := by
  rw [parseStrBody_flat]
  rfl

theorem natDigs_head (n : Nat) : ∃ d ds, natDigs n = d :: ds ∧ isDigitC d = true := by
  rcases hnd : natDigs n with _ | ⟨a, b⟩
  · exact absurd hnd (natDigs_ne_nil _)
  · refine ⟨a, b, rfl, ?_⟩
    have := natDigs_all_digit n
    rw [hnd] at this
    exact this a (by simp)

theorem serializeL_head : ∀ j : JVal, ∃ c t, serializeL j = c :: t
    ∧ jsonWs c = false ∧ ¬ c = ']' ∧ ¬ c = '}'
  | .null => ⟨'n', _, rfl, rfl, by decide, by decide⟩
  | .bool true => ⟨'t', _, rfl, rfl, by decide, by decide⟩
  | .bool false => ⟨'f', _, rfl, rfl, by decide, by decide⟩
  | .str s => ⟨'"', _, rfl, rfl, by decide, by decide⟩
  | .arr xs => ⟨'[', _, rfl, rfl, by decide, by decide⟩
  | .obj kvs => ⟨'{', _, rfl, rfl, by decide, by decide⟩
  | .int n => by
      by_cases hn : n < 0
      · exact ⟨'-', natDigs n.natAbs, by simp [serializeL, intChars, hn],
          rfl, by decide, by decide⟩
      · obtain ⟨d, ds, hds, hd1⟩ := natDigs_head n.natAbs
        exact ⟨d, ds, by simp [serializeL, intChars, hn, hds], isDigitC_not_ws d hd1,
          isDigitC_ne d hd1 ']' (by decide), isDigitC_ne d hd1 '}' (by decide)⟩

theorem serializeL_len_pos (j : JVal) : 0 < (serializeL j).length := by
  obtain ⟨c, t, h, -, -, -⟩ := serializeL_head j
  rw [h]; simp

theorem skipWsL_ser (j : JVal) (rest : List Char) :
    skipWsL (serializeL j ++ rest) = serializeL j ++ rest := by
  obtain ⟨c, t, h, hws, -, -⟩ := serializeL_head j
  rw [h, List.cons_append, skipWsL_cons_not _ _ hws]

theorem parseVal_null (g : Nat) (rest : List Char) :
    parseVal (g + 1) (serializeL .null ++ rest) = some (.null, rest) := rfl

theorem parseVal_true (g : Nat) (rest : List Char) :
    parseVal (g + 1) (serializeL (.bool true) ++ rest) = some (.bool true, rest) := rfl

theorem parseVal_false (g : Nat) (rest : List Char) :
    parseVal (g + 1) (serializeL (.bool false) ++ rest) = some (.bool false, rest) := rfl

theorem parseVal_str (g : Nat) (s : String) (rest : List Char) :
    parseVal (g + 1) (serializeL (.str s) ++ rest) = some (.str s, rest) := by
  rw [show serializeL (.str s) ++ rest = '"' :: (s.toList.flatMap escChar ++ '"' :: rest) from by
    simp [serializeL, serStr]]
  have hs : parseStrBody [] (s.data.flatMap escChar ++ '"' :: rest) = some (s, rest) :=
    parseStrBody_serStr s rest
  simp [parseVal, skipWsL, jsonWs, hs]

theorem parseVal_int (g : Nat) (n : Int) (rest : List Char) (hrest : numStop rest = true) :
    parseVal (g + 1) (serializeL (.int n) ++ rest) = some (.int n, rest) := by
  by_cases hn : n < 0
  · rw [show serializeL (.int n) ++ rest = '-' :: (natDigs n.natAbs ++ rest) from by
      simp [serializeL, intChars, hn]]
    have hP : parseNumTok ('-' :: (natDigs n.natAbs ++ rest)) = some (n, rest) := by
      have h2 := parseNumTok_intChars n rest hrest
      rw [show intChars n ++ rest = '-' :: (natDigs n.natAbs ++ rest) from by
        simp [intChars, hn]] at h2
      exact h2
    simp [parseVal, skipWsL, jsonWs, hP]
  · obtain ⟨d, ds, hds, hd1⟩ := natDigs_head n.natAbs
    rw [show serializeL (.int n) ++ rest = d :: (ds ++ rest) from by
      simp [serializeL, intChars, hn, hds]]
    have hP : parseNumTok (d :: (ds ++ rest)) = some (n, rest) := by
      have h2 := parseNumTok_intChars n rest hrest
      rw [show intChars n ++ rest = d :: (ds ++ rest) from by
        simp [intChars, hn, hds]] at h2
      exact h2
    have hws := isDigitC_not_ws d hd1
    simp [parseVal, skipWsL, hws, hP, hd1,
      isDigitC_ne d hd1 'n' (by decide), isDigitC_ne d hd1 't' (by decide),
      isDigitC_ne d hd1 'f' (by decide), isDigitC_ne d hd1 '"' (by decide),
      isDigitC_ne d hd1 '[' (by decide), isDigitC_ne d hd1 '{' (by decide)]

theorem parseVal_arr_nil (g : Nat) (rest : List Char) :
    parseVal (g + 1) (serializeL (.arr []) ++ rest) = some (.arr [], rest) := by
  rw [show serializeL (.arr []) ++ rest = '[' :: ']' :: rest from by
    simp [serializeL, serItems]]
  simp [parseVal, skipWsL, jsonWs]

theorem parseVal_arr_cons (g : Nat) (x : JVal) (xs : List JVal) (rest : List Char)
    (hPI : parseItems g (serItems (x :: xs) ++ ']' :: rest) = some (x :: xs, rest)) :
    parseVal (g + 1) (serializeL (.arr (x :: xs)) ++ rest) = some (.arr (x :: xs), rest) := by
  rw [show serializeL (.arr (x :: xs)) ++ rest = '[' :: (serItems (x :: xs) ++ ']' :: rest) from by
    simp [serializeL]]
  obtain ⟨c, t, hct, hws, hne1, hne2⟩ := serializeL_head x
  have hitems : serItems (x :: xs) ++ ']' :: rest
      = c :: (t ++ (serItemsTail xs ++ ']' :: rest)) := by
    simp [serItems, hct]
  simp only [parseVal, skipWsL_cons_not '[' _ (by decide)]
  rw [hitems, skipWsL_cons_not c _ hws]
  simp [hne1]
  rw [← hitems, hPI]

theorem parseVal_obj_nil (g : Nat) (rest : List Char) :
    parseVal (g + 1) (serializeL (.obj []) ++ rest) = some (.obj [], rest) := by
  rw [show serializeL (.obj []) ++ rest = '{' :: '}' :: rest from by
    simp [serializeL, serFields]]
  simp [parseVal, skipWsL, jsonWs]

theorem parseVal_obj_cons (g : Nat) (k : String) (v : JVal) (kvs : List (String × JVal))
    (rest : List Char)
    (hPF : parseFields g (serFields ((k, v) :: kvs) ++ '}' :: rest)
      = some ((k, v) :: kvs, rest)) :
    parseVal (g + 1) (serializeL (.obj ((k, v) :: kvs)) ++ rest)
      = some (.obj ((k, v) :: kvs), rest) := by
  rw [show serializeL (.obj ((k, v) :: kvs)) ++ rest
      = '{' :: (serFields ((k, v) :: kvs) ++ '}' :: rest) from by
    simp [serializeL]]
  have hflds : serFields ((k, v) :: kvs) ++ '}' :: rest
      = '"' :: (k.data.flatMap escChar
          ++ '"' :: ':' :: ' ' :: (serializeL v ++ (serFieldsTail kvs ++ '}' :: rest))) := by
    simp [serFields, serStr]
  simp only [parseVal, skipWsL_cons_not '{' _ (by decide)]
  rw [hflds, skipWsL_cons_not '"' _ (by decide)]
  simp
  rw [← hflds, hPF]

theorem skipWsL_serItems (x : JVal) (xs : List JVal) (X : List Char) :
    skipWsL (serItems (x :: xs) ++ X) = serItems (x :: xs) ++ X := by
  obtain ⟨c, t, hct, hws, -, -⟩ := serializeL_head x
  have hshape : serItems (x :: xs) ++ X = c :: (t ++ (serItemsTail xs ++ X)) := by
    simp [serItems, hct]
  rw [hshape, skipWsL_cons_not c _ hws, ← hshape]

theorem skipWsL_serFields (k : String) (v : JVal) (kvs : List (String × JVal)) (X : List Char) :
    skipWsL (serFields ((k, v) :: kvs) ++ X) = serFields ((k, v) :: kvs) ++ X := by
  have hshape : serFields ((k, v) :: kvs) ++ X
      = '"' :: (k.data.flatMap escChar
          ++ '"' :: ':' :: ' ' :: (serializeL v ++ (serFieldsTail kvs ++ X))) := by
    simp [serFields, serStr]
  rw [hshape, skipWsL_cons_not '"' _ (by decide), ← hshape]

theorem parseItems_one (g : Nat) (x : JVal) (rest : List Char)
    (hPV : parseVal g (serializeL x ++ ']' :: rest) = some (x, ']' :: rest)) :
    parseItems (g + 1) (serItems [x] ++ ']' :: rest) = some ([x], rest) := by
  rw [show serItems [x] ++ ']' :: rest = serializeL x ++ ']' :: rest from by
    simp [serItems, serItemsTail]]
  simp [parseItems, hPV, skipWsL_cons_not ']' _ (by decide)]

theorem parseItems_cons (g : Nat) (x x2 : JVal) (xs : List JVal) (rest : List Char)
    (hPV : parseVal g (serializeL x ++ ',' :: ' ' :: (serItems (x2 :: xs) ++ ']' :: rest))
      = some (x, ',' :: ' ' :: (serItems (x2 :: xs) ++ ']' :: rest)))
    (hPI : parseItems g (serItems (x2 :: xs) ++ ']' :: rest) = some (x2 :: xs, rest)) :
    parseItems (g + 1) (serItems (x :: x2 :: xs) ++ ']' :: rest)
      = some (x :: x2 :: xs, rest) := by
  rw [show serItems (x :: x2 :: xs) ++ ']' :: rest
      = serializeL x ++ ',' :: ' ' :: (serItems (x2 :: xs) ++ ']' :: rest) from by
    simp [serItems, serItemsTail]]
  simp only [parseItems, hPV, skipWsL_cons_not ',' _ (by decide), skipWsL_space,
    skipWsL_serItems, hPI]

theorem parseFields_one (g : Nat) (k : String) (v : JVal) (rest : List Char)
    (hPV : parseVal g (serializeL v ++ '}' :: rest) = some (v, '}' :: rest)) :
    parseFields (g + 1) (serFields [(k, v)] ++ '}' :: rest) = some ([(k, v)], rest) := by
  rw [show serFields [(k, v)] ++ '}' :: rest
      = '"' :: (k.data.flatMap escChar
          ++ '"' :: ':' :: ' ' :: (serializeL v ++ '}' :: rest)) from by
    simp [serFields, serFieldsTail, serStr]]
  have hk : parseStrBody [] (k.data.flatMap escChar
      ++ '"' :: ':' :: ' ' :: (serializeL v ++ '}' :: rest))
      = some (k, ':' :: ' ' :: (serializeL v ++ '}' :: rest)) :=
    parseStrBody_serStr k _
  simp [parseFields, skipWsL_cons_not '"' _ (by decide), hk,
    skipWsL_cons_not ':' _ (by decide), skipWsL_space, skipWsL_ser, hPV,
    skipWsL_cons_not '}' _ (by decide)]

theorem parseFields_cons (g : Nat) (k : String) (v : JVal) (k2 : String) (v2 : JVal)
    (kvs : List (String × JVal)) (rest : List Char)
    (hPV : parseVal g (serializeL v
        ++ ',' :: ' ' :: (serFields ((k2, v2) :: kvs) ++ '}' :: rest))
      = some (v, ',' :: ' ' :: (serFields ((k2, v2) :: kvs) ++ '}' :: rest)))
    (hPF : parseFields g (serFields ((k2, v2) :: kvs) ++ '}' :: rest)
      = some ((k2, v2) :: kvs, rest)) :
    parseFields (g + 1) (serFields ((k, v) :: (k2, v2) :: kvs) ++ '}' :: rest)
      = some ((k, v) :: (k2, v2) :: kvs, rest) := by
  rw [show serFields ((k, v) :: (k2, v2) :: kvs) ++ '}' :: rest
      = '"' :: (k.data.flatMap escChar
          ++ '"' :: ':' :: ' ' :: (serializeL v
            ++ ',' :: ' ' :: (serFields ((k2, v2) :: kvs) ++ '}' :: rest))) from by
    simp [serFields, serFieldsTail, serStr]]
  have hk : parseStrBody [] (k.data.flatMap escChar
      ++ '"' :: ':' :: ' ' :: (serializeL v
        ++ ',' :: ' ' :: (serFields ((k2, v2) :: kvs) ++ '}' :: rest)))
      = some (k, ':' :: ' ' :: (serializeL v
        ++ ',' :: ' ' :: (serFields ((k2, v2) :: kvs) ++ '}' :: rest))) :=
    parseStrBody_serStr k _
  simp [parseFields, skipWsL_cons_not '"' _ (by decide), hk,
    skipWsL_cons_not ':' _ (by decide), skipWsL_space, skipWsL_ser, hPV,
    skipWsL_cons_not ',' _ (by decide), skipWsL_serFields, hPF]

theorem parse_ser_all (f : Nat) :
    (∀ j rest, (serializeL j).length ≤ f → numStop rest = true →
        parseVal f (serializeL j ++ rest) = some (j, rest))
    ∧ (∀ x xs rest, (serItems (x :: xs)).length < f →
        parseItems f (serItems (x :: xs) ++ ']' :: rest) = some (x :: xs, rest))
    ∧ (∀ k v kvs rest, (serFields ((k, v) :: kvs)).length < f →
        parseFields f (serFields ((k, v) :: kvs) ++ '}' :: rest)
          = some ((k, v) :: kvs, rest)) := by
  induction f using Nat.strongRecOn with
  | _ f ih =>
      match f with
      | 0 =>
          refine ⟨fun j rest hlen _ => ?_, fun x xs rest hlen => ?_, fun k v kvs rest hlen => ?_⟩
          · exact absurd hlen (by have := serializeL_len_pos j; omega)
          · exact absurd hlen (by omega)
          · exact absurd hlen (by omega)
      | g + 1 =>
          have ihg := ih g (by omega)
          refine ⟨fun j rest hlen hrest => ?_, fun x xs rest hlen => ?_,
            fun k v kvs rest hlen => ?_⟩
          · cases j with
            | null => exact parseVal_null g rest
            | bool b =>
                cases b with
                | true => exact parseVal_true g rest
                | false => exact parseVal_false g rest
            | int n => exact parseVal_int g n rest hrest
            | str s => exact parseVal_str g s rest
            | arr xs =>
                cases xs with
                | nil => exact parseVal_arr_nil g rest
                | cons x xs2 =>
                    refine parseVal_arr_cons g x xs2 rest (ihg.2.1 x xs2 rest ?_)
                    have hl : (serializeL (JVal.arr (x :: xs2))).length
                        = (serItems (x :: xs2)).length + 2 := by
                      simp [serializeL]
                    omega
            | obj kvs =>
                cases kvs with
                | nil => exact parseVal_obj_nil g rest
                | cons kv kvs2 =>
                    obtain ⟨k, v⟩ := kv
                    refine parseVal_obj_cons g k v kvs2 rest (ihg.2.2 k v kvs2 rest ?_)
                    have hl : (serializeL (JVal.obj ((k, v) :: kvs2))).length
                        = (serFields ((k, v) :: kvs2)).length + 2 := by
                      simp [serializeL]
                    omega
          · have hx : (serializeL x).length ≤ (serItems (x :: xs)).length := by
              simp [serItems]
            cases xs with
            | nil =>
                refine parseItems_one g x rest (ihg.1 x (']' :: rest) (by omega) rfl)
            | cons x2 xs2 =>
                have hsplit : (serItems (x :: x2 :: xs2)).length
                    = (serializeL x).length + 2 + (serItems (x2 :: xs2)).length := by
                  simp [serItems, serItemsTail]
                  omega
                have hxpos := serializeL_len_pos x
                refine parseItems_cons g x x2 xs2 rest
                  (ihg.1 x (',' :: ' ' :: (serItems (x2 :: xs2) ++ ']' :: rest))
                    (by omega) rfl)
                  (ihg.2.1 x2 xs2 rest (by omega))
          · have hk2 : 2 ≤ (serStr k).length := by simp [serStr]
            have hsplit1 : (serFields ((k, v) :: kvs)).length
                = (serStr k).length + 2 + (serializeL v).length
                  + (serFieldsTail kvs).length := by
              simp [serFields]
              omega
            cases kvs with
            | nil =>
                have ht0 : (serFieldsTail ([] : List (String × JVal))).length = 0 := by
                  simp [serFieldsTail]
                refine parseFields_one g k v rest (ihg.1 v ('}' :: rest) (by omega) rfl)
            | cons kv2 kvs2 =>
                obtain ⟨k2, v2⟩ := kv2
                have hsplit2 : (serFieldsTail ((k2, v2) :: kvs2)).length
                    = 2 + (serFields ((k2, v2) :: kvs2)).length := by
                  simp [serFieldsTail, serFields]
                  omega
                refine parseFields_cons g k v k2 v2 kvs2 rest
                  (ihg.1 v (',' :: ' ' :: (serFields ((k2, v2) :: kvs2) ++ '}' :: rest))
                    (by omega) rfl)
                  (ihg.2.2 k2 v2 kvs2 rest (by omega))

theorem parseJson_serialize (v : JVal) : parseJson (serialize v) = some v := by
  have h := (parse_ser_all ((serializeL v).length + 1)).1 v [] (by omega) rfl
  rw [List.append_nil] at h
  unfold parseJson serialize
  rw [show (String.mk (serializeL v)).toList = serializeL v from rfl]
  simp [h, skipWsL]

theorem hexCh_ne_bt (n : Nat) (h : n < 16) : ¬ hexCh n = Char.ofNat 96 := by
  interval_cases n <;> decide

theorem escChar_no_bt (c : Char) (h : ¬ c = Char.ofNat 96) :
    ¬ Char.ofNat 96 ∈ escChar c := by
  unfold escChar
  split_ifs with h1 h2 h3 h4 h5 h6 h7 h8
  · decide
  · decide
  · decide
  · decide
  · decide
  · decide
  · decide
  · intro hm
    simp only [List.mem_cons, List.not_mem_nil, or_false] at hm
    rcases hm with hm | hm | hm | hm | hm | hm
    · exact absurd hm.symm (by decide)
    · exact absurd hm.symm (by decide)
    · exact absurd hm.symm (by decide)
    · exact absurd hm.symm (by decide)
    · exact absurd hm.symm (hexCh_ne_bt _ (by omega))
    · exact absurd hm.symm (hexCh_ne_bt _ (by omega))
  · intro hm
    simp only [List.mem_singleton] at hm
    exact h hm.symm

theorem intChars_no_bt (n : Int) : ¬ Char.ofNat 96 ∈ intChars n := by
  intro hm
  unfold intChars at hm
  rw [List.mem_append] at hm
  rcases hm with hm | hm
  · split_ifs at hm <;> simp_all
  · have := natDigs_all_digit n.natAbs _ hm
    exact absurd this (by decide)

theorem serStr_no_bt (s : String) (h : s.toList.contains (Char.ofNat 96) = false) :
    ¬ Char.ofNat 96 ∈ serStr s := by
  intro hm
  unfold serStr at hm
  simp only [List.mem_cons, List.mem_append, List.mem_singleton] at hm
  rcases hm with hm | hm | hm
  · exact absurd hm.symm (by decide)
  · rw [List.mem_flatMap] at hm
    obtain ⟨a, ha, hbt⟩ := hm
    refine escChar_no_bt a ?_ hbt
    intro he
    rw [List.contains_eq_any_beq] at h
    simp only [List.any_eq_false, beq_iff_eq] at h
    exact h a ha he.symm
  · exact absurd hm.symm (by decide)

theorem no_bt_all (n : Nat) :
    (∀ v, (serializeL v).length ≤ n → jClean v = true →
        ¬ Char.ofNat 96 ∈ serializeL v)
    ∧ (∀ xs, (serItems xs).length < n → jCleanItems xs = true →
        ¬ Char.ofNat 96 ∈ serItems xs)
    ∧ (∀ kvs, (serFields kvs).length < n → jCleanFields kvs = true →
        ¬ Char.ofNat 96 ∈ serFields kvs) := by
  induction n using Nat.strongRecOn with
  | _ n ih =>
      refine ⟨fun v hlen hcl => ?_, fun xs hlen hcl => ?_, fun kvs hlen hcl => ?_⟩
      · cases v with
        | null => decide
        | bool b => cases b <;> decide
        | int m => exact intChars_no_bt m
        | str s =>
            refine serStr_no_bt s ?_
            simpa [jClean] using hcl
        | arr xs =>
            intro hm
            have hlist : serializeL (JVal.arr xs) = '[' :: (serItems xs ++ [']']) := rfl
            rw [hlist] at hm hlen
            simp only [List.mem_cons, List.mem_append, List.mem_singleton] at hm
            rcases hm with hm | hm | hm
            · exact absurd hm.symm (by decide)
            · have hcl2 : jCleanItems xs = true := by simpa [jClean] using hcl
              refine (ih (n - 1) (by simp at hlen; omega)).2.1 xs ?_ hcl2 hm
              simp at hlen; omega
            · exact absurd hm.symm (by decide)
        | obj kvs =>
            intro hm
            have hlist : serializeL (JVal.obj kvs) = '{' :: (serFields kvs ++ ['}']) := rfl
            rw [hlist] at hm hlen
            simp only [List.mem_cons, List.mem_append, List.mem_singleton] at hm
            rcases hm with hm | hm | hm
            · exact absurd hm.symm (by decide)
            · have hcl2 : jCleanFields kvs = true := by simpa [jClean] using hcl
              refine (ih (n - 1) (by simp at hlen; omega)).2.2 kvs ?_ hcl2 hm
              simp at hlen; omega
            · exact absurd hm.symm (by decide)
      · cases xs with
        | nil => intro hm; simp [serItems] at hm
        | cons x xs2 =>
            intro hm
            rw [show serItems (x :: xs2) = serializeL x ++ serItemsTail xs2 from rfl,
              List.mem_append] at hm
            simp only [jCleanItems, Bool.and_eq_true] at hcl
            have hlx : (serItems (x :: xs2)).length
                = (serializeL x).length + (serItemsTail xs2).length := by
              simp [serItems]
            have hxpos := serializeL_len_pos x
            rcases hm with hm | hm
            · exact (ih (n - 1) (by omega)).1 x (by omega) hcl.1 hm
            · cases xs2 with
              | nil => simp [serItemsTail] at hm
              | cons x2 xs3 =>
                  rw [show serItemsTail (x2 :: xs3)
                      = ',' :: ' ' :: (serializeL x2 ++ serItemsTail xs3) from rfl] at hm
                  simp only [List.mem_cons] at hm
                  rcases hm with hm | hm | hm
                  · exact absurd hm.symm (by decide)
                  · exact absurd hm.symm (by decide)
                  · have htl : (serItemsTail (x2 :: xs3)).length
                        = (serItems (x2 :: xs3)).length + 2 := by
                      simp [serItemsTail, serItems] <;> try omega
                    have hm2 : Char.ofNat 96 ∈ serItems (x2 :: xs3) := by
                      rw [show serItems (x2 :: xs3)
                          = serializeL x2 ++ serItemsTail xs3 from rfl]
                      exact hm
                    exact (ih (n - 1) (by omega)).2.1 (x2 :: xs3) (by omega) hcl.2 hm2
      · cases kvs with
        | nil => intro hm; simp [serFields] at hm
        | cons kv kvs2 =>
            obtain ⟨k, v⟩ := kv
            intro hm
            rw [show serFields ((k, v) :: kvs2)
                = serStr k ++ ':' :: ' ' :: (serializeL v ++ serFieldsTail kvs2) from rfl] at hm
            simp only [jCleanFields, Bool.and_eq_true] at hcl
            have hlk : 2 ≤ (serStr k).length := by simp [serStr]
            have hlx : (serFields ((k, v) :: kvs2)).length
                = (serStr k).length + 2 + (serializeL v).length
                  + (serFieldsTail kvs2).length := by
              simp [serFields]
              try omega
            have hvpos := serializeL_len_pos v
            rw [List.mem_append] at hm
            rcases hm with hm | hm
            · exact serStr_no_bt k (by simpa using hcl.1.1) hm
            · simp only [List.mem_cons, List.mem_append] at hm
              rcases hm with hm | hm | hm | hm
              · exact absurd hm.symm (by decide)
              · exact absurd hm.symm (by decide)
              · exact (ih (n - 1) (by omega)).1 v (by omega) hcl.1.2 hm
              · cases kvs2 with
                | nil => simp [serFieldsTail] at hm
                | cons kv2 kvs3 =>
                    obtain ⟨k2, v2⟩ := kv2
                    rw [show serFieldsTail ((k2, v2) :: kvs3)
                        = ',' :: ' ' :: (serStr k2
                          ++ ':' :: ' ' :: (serializeL v2 ++ serFieldsTail kvs3))
                      from rfl] at hm
                    simp only [List.mem_cons] at hm
                    rcases hm with hm | hm | hm
                    · exact absurd hm.symm (by decide)
                    · exact absurd hm.symm (by decide)
                    · have htl : (serFieldsTail ((k2, v2) :: kvs3)).length
                          = (serFields ((k2, v2) :: kvs3)).length + 2 := by
                        simp [serFieldsTail, serFields] <;> try omega
                      have hm2 : Char.ofNat 96 ∈ serFields ((k2, v2) :: kvs3) := by
                        rw [show serFields ((k2, v2) :: kvs3)
                            = serStr k2 ++ ':' :: ' ' :: (serializeL v2
                              ++ serFieldsTail kvs3) from rfl]
                        exact hm
                      exact (ih (n - 1) (by omega)).2.2 ((k2, v2) :: kvs3)
                        (by omega) hcl.2 hm2

theorem serializeL_no_bt (v : JVal) (h : jClean v = true) :
    ¬ Char.ofNat 96 ∈ serializeL v :=
  (no_bt_all (serializeL v).length).1 v (by omega) h

theorem fencedAt_ne (c : Char) (rest : List Char) (h : ¬ c = Char.ofNat 96) :
    fencedAt (c :: rest) = none := by
  rw [fencedAt.eq_def]
  split
  · next c1 c2 c3 r heq =>
      injection heq with h1 h2
      subst h1
      simp [h]
  · rfl

theorem fencedSearch_no_bt (cs : List Char) (h : ¬ Char.ofNat 96 ∈ cs) :
    fencedSearch cs = none := by
  induction cs with
  | nil => rfl
  | cons c rest ih =>
      rw [fencedSearch, fencedAt_ne c rest (fun he => h (by rw [he]; simp))]
      exact ih (fun hm => h (List.mem_cons_of_mem c hm))

/-- C9 counterexample: a JSON-representable string value whose serialization
contains a fenced block is mis-extracted, so the unconditional round-trip
law fails. -/
theorem extract_json_roundtrip_counterexample :
    extract_json_from_response (serialize (.str "```json \x7b\x7d ```")) = some (.obj [])
    ∧ JVal.str "```json \x7b\x7d ```" ≠ JVal.obj [] :=
  ⟨by rfl, fun h => JVal.noConfusion h⟩

/-- C9 (amended): for every JSON-representable value none of whose strings
contains a backtick, `extract_json_from_response (serialize v)` returns `v`:
the fenced probe finds nothing and the whole-string parse inverts the
serializer. -/
theorem extract_json_serialize_roundtrip (v : JVal) (h : jClean v = true) :
    extract_json_from_response (serialize v) = some v := by
  unfold extract_json_from_response
  rw [show (serialize v).toList = serializeL v from rfl,
    fencedSearch_no_bt _ (serializeL_no_bt v h)]
  unfold extractWholeOrBraces
  rw [parseJson_serialize]

theorem extract_json_serialize_roundtrip_witness :
    jClean (JVal.obj [("score", JVal.int 85), ("notes", JVal.str "ok")]) = true
    ∧ extract_json_from_response
        (serialize (JVal.obj [("score", JVal.int 85), ("notes", JVal.str "ok")]))
      = some (JVal.obj [("score", JVal.int 85), ("notes", JVal.str "ok")]) :=
  ⟨by rfl, extract_json_serialize_roundtrip _ (by rfl)⟩

end Pw
